import Mathlib

/-!
# Verification of `charm-events`' `simulator.py`

A shallow embedding of `src/simulator.py` (the `CharmEventSimulator` class and its
helpers) together with proofs about the claims of the specification.

Modelling conventions:

* Python's process-wide pseudorandom source (`random.random`, `random.choice`,
  `random.randrange`) is made explicit as a deterministic stream of naturals
  (`RandState`).  A call to `random.random()` is abstracted as a rational draw
  `(d % 1000) / 1000 ∈ [0,1)` from the stream; `random.choice(seq)` and
  `random.randrange(0, n)` are abstracted as `d % n`.  All theorems below
  quantify over the whole stream (or hold for each concrete stream), so only
  the branching structure of the code matters, never the distribution.
* Python exceptions (`RuntimeError`, `ValueError`, `KeyError`, `IndexError`)
  are modelled by an error component of the result.  As in Python, an
  exception does not roll back the mutations performed before it was raised,
  so every step returns the state it had reached (`StepRes`).
* Python mutates shared `Relation` objects in place
  (`subject.is_joined = True`); membership tests use structural equality of
  dataclasses.  We model relations as values and model the in-place mutation
  as updating the entries of `relations` equal to the subject, which is the
  aliased view the engine itself consults.
* `_close_phase` is the "phase-close hook" of the spec.  To make "the hook was
  executed" an observable statement, the embedding records each invocation of
  the hook in a ghost field `closed_log`; the hook's behaviour is otherwise
  exactly that of `_close_phase`.
-/

namespace CharmSim

/-- `Event` dataclass: a named observable occurrence. -/
structure Event where
  name : String
deriving DecidableEq, Repr

/-- `Source` enum: attributable origin of an action. -/
inductive Source
  | user
  | this_charm
  | other_charm
deriving DecidableEq, Repr

/-- `Relation` dataclass. -/
structure Relation where
  name : String
  is_peer : Bool := false
  is_joined : Bool := false
deriving DecidableEq, Repr

/-- `StorageMount` dataclass. -/
structure StorageMount where
  name : String
deriving DecidableEq, Repr

/-- `Container` dataclass. -/
structure Container where
  name : String
deriving DecidableEq, Repr

/-- The subject of an `Action`: `None`, a `Relation` or a `StorageMount`.
(No other subject type is ever constructed in the source, so the final
`ValueError` branch of `_exec` for unsupported subject types has no
counterpart here.) -/
inductive Subject
  | nothing
  | rel (r : Relation)
  | storage (s : StorageMount)
deriving DecidableEq, Repr

/-- `Action` dataclass: `(subject, name, source)`; equality is field-wise,
matching the dataclass `__eq__` used by pool membership. -/
structure Action where
  subject : Subject
  name : String
  source : Source
deriving DecidableEq, Repr

/-- `Phase` enum. -/
inductive Phase
  | setup
  | operation
  | teardown
deriving DecidableEq, Repr

/-- `Platform` enum. -/
inductive Platform
  | k8s
  | lxd
deriving DecidableEq, Repr

/-- An entry of a scenario trace: Python appends both `Event` and `Action`
objects to `self.scenario[phase]`. -/
inductive Entry
  | event (e : Event)
  | action (a : Action)
deriving DecidableEq, Repr

/-! ## The explicit pseudorandom source -/

/-- The process-wide pseudorandom source, made explicit: an infinite stream of
naturals and a cursor. -/
structure RandState where
  src : Nat → Nat
  pos : Nat

/-- Consume one value from the stream. -/
def RandState.draw (rs : RandState) : Nat × RandState :=
  (rs.src rs.pos, ⟨rs.src, rs.pos + 1⟩)

/-- `random.random()`: a uniform draw in `[0,1)`, abstracted with granularity
`1/1000` and represented in thousandths (a natural in `[0, 1000)`), fine
enough to land on either side of every chance in the chance table. -/
def RandState.unitDraw (rs : RandState) : Nat × RandState :=
  let (d, rs') := rs.draw
  (d % 1000, rs')

/-! ## Errors and stepping -/

/-- The Python exceptions raised by the simulator. -/
inductive SimError
  | runtimeError (msg : String)
  | valueError (msg : String)
  | keyError
  | indexError
deriving DecidableEq, Repr

/-! ## Derived events and actions (the dataclass accessors) -/

def Relation.created (r : Relation) : Event := ⟨r.name ++ "-relation-created"⟩

def Relation.broken (r : Relation) : Event := ⟨r.name ++ "-relation-broken"⟩

def Relation.changed (r : Relation) : Event := ⟨r.name ++ "-relation-changed"⟩

def Relation.joined (r : Relation) : Event := ⟨r.name ++ "-relation-joined"⟩

def Relation.departed (r : Relation) : Event := ⟨r.name ++ "-relation-departed"⟩

/-- `Relation.change`: draws its `Source` freshly on each access
(`random.choice((Source.this_charm, Source.other_charm))`). -/
def Relation.change (r : Relation) (rs : RandState) : Action × RandState :=
  let (d, rs') := rs.draw
  (⟨Subject.rel r, "change", if d % 2 = 0 then Source.this_charm else Source.other_charm⟩, rs')

def Relation.create (r : Relation) : Action := ⟨Subject.rel r, "create", Source.user⟩

def Relation.destroy (r : Relation) : Action := ⟨Subject.rel r, "break", Source.user⟩

def Relation.join (r : Relation) : Action := ⟨Subject.rel r, "join", Source.user⟩

def Relation.depart (r : Relation) : Action := ⟨Subject.rel r, "depart", Source.user⟩

def StorageMount.detached (s : StorageMount) : Event := ⟨s.name ++ "-storage-detached"⟩

def StorageMount.attached (s : StorageMount) : Event := ⟨s.name ++ "-storage-attached"⟩

def StorageMount.attach (s : StorageMount) : Action := ⟨Subject.storage s, "attach", Source.user⟩

def StorageMount.detach (s : StorageMount) : Action := ⟨Subject.storage s, "detach", Source.user⟩

def Container.pebble_ready (c : Container) : Event := ⟨c.name ++ "-pebble-ready"⟩

/-- `Source.random()`: `random.choice(list(Source))`, where
`list(Source) = [user, this_charm, other_charm]`. -/
def Source.random (rs : RandState) : Source × RandState :=
  let (d, rs') := rs.draw
  (if d % 3 = 0 then Source.user else if d % 3 = 1 then Source.this_charm
   else Source.other_charm, rs')

def Action.change_config : Action := ⟨Subject.nothing, "config-change", Source.user⟩

def Action.scale_up : Action := ⟨Subject.nothing, "scale+", Source.user⟩

def Action.scale_down : Action := ⟨Subject.nothing, "scale-", Source.user⟩

/-- `Action.leadership_change`: draws its `Source` freshly on each access. -/
def Action.leadership_change (rs : RandState) : Action × RandState :=
  let (s, rs') := Source.random rs
  (⟨Subject.nothing, "leadership_change", s⟩, rs')

/-! ## Module-level constants -/

/-- The module-level string `pebble_ready = 'pebble-ready'`. -/
def pebble_ready_kind : String := "pebble-ready"

/-- The module-level string `update_status = 'update-status'`. -/
def update_status_kind : String := "update-status"

def start : Event := ⟨"start"⟩

def stop : Event := ⟨"stop"⟩

def install : Event := ⟨"install"⟩

def remove : Event := ⟨"remove"⟩

def config_changed : Event := ⟨"config-changed"⟩

def leader_elected : Event := ⟨"leader-elected"⟩

def leader_settings_changed : Event := ⟨"leader-settings-changed"⟩

/-- The default of `_queue`'s `allow` parameter: `(pebble_ready, update_status)`. -/
def default_allow : List String := [pebble_ready_kind, update_status_kind]

/-- `random_insert(lst, item)`: insert at `random.randrange(0, len(lst))`.
`randrange` raises `ValueError` on an empty range (`len(lst) = 0`). -/
def random_insert {α : Type} (lst : List α) (item : α) (rs : RandState) :
    Option SimError × List α × RandState :=
  if lst.length = 0 then (some (SimError.valueError "empty range for randrange"), lst, rs)
  else
    let (d, rs') := rs.draw
    (none, lst.insertIdx (d % lst.length) item, rs')

/-! ## The chance and must-occur tables

`self._event_chances` and `self._event_must_occur` are set to fixed literal
nested dicts in `__init__`; they are embedded as fixed tables.  (Python would
raise `KeyError` on any key other than the two module-level strings; only
those two ever occur, and the tables return the sentinel values `0` / `false`
elsewhere.) -/

/-- `self._event_chances[phase][kind]`, in thousandths (matching the
granularity of `unitDraw`): `0.2 = 200`, `0.1 = 100`, `0.05 = 50`,
`0.01 = 10`. -/
def event_chances (p : Phase) (kind : String) : Nat :=
  match p with
  | Phase.setup =>
      if kind = pebble_ready_kind then 200 else if kind = update_status_kind then 100 else 0
  | Phase.operation =>
      if kind = pebble_ready_kind then 50 else if kind = update_status_kind then 100 else 0
  | Phase.teardown =>
      if kind = pebble_ready_kind then 10 else if kind = update_status_kind then 50 else 0

/-- `self._event_must_occur[phase][kind]`: `pebble_ready` must occur in setup
only; `update_status` never. -/
def event_must_occur (p : Phase) (kind : String) : Bool :=
  match p with
  | Phase.setup => kind = pebble_ready_kind
  | Phase.operation => false
  | Phase.teardown => false

/-! ## Simulator state -/

/-- The mutable state of a `CharmEventSimulator` instance.  The
`scenario` dict is split into its three phase traces; `closed_log` is ghost
instrumentation recording each invocation of the phase-close hook
`_close_phase` (see the header comment). -/
structure Sim where
  max_operation_length : Nat
  is_leader : Bool
  scale : Nat
  containers : List Container
  relations : List Relation
  storage_mounts : List StorageMount
  potential_relations : List Relation
  potential_storage_mounts : List StorageMount
  platform : Platform
  has_pebble : Bool
  possible_actions : List Action
  phase : Option Phase
  setup_trace : List Entry
  operation_trace : List Entry
  teardown_trace : List Entry
  closed_log : List Phase
deriving Repr

/-- `self.scenario[phase]`. -/
def Sim.scenario (s : Sim) (p : Phase) : List Entry :=
  match p with
  | Phase.setup => s.setup_trace
  | Phase.operation => s.operation_trace
  | Phase.teardown => s.teardown_trace

/-- Replace `self.scenario[phase]` wholesale (Python mutates the list bound in
the dict in place). -/
def Sim.setScenario (s : Sim) (p : Phase) (tr : List Entry) : Sim :=
  match p with
  | Phase.setup => { s with setup_trace := tr }
  | Phase.operation => { s with operation_trace := tr }
  | Phase.teardown => { s with teardown_trace := tr }

/-- `self._peer_relations` (as the list of values the filter iterates over). -/
def Sim.peer_relations (s : Sim) : List Relation :=
  s.relations.filter (fun r => r.is_peer)

/-- `self._non_peer_relations`. -/
def Sim.non_peer_relations (s : Sim) : List Relation :=
  s.relations.filter (fun r => !r.is_peer)

/-- `self.add_relation(relation)`: `self.relations += relation`. -/
def Sim.add_relation (s : Sim) (r : Relation) : Sim :=
  { s with relations := s.relations ++ [r] }

/-- `self.remove_relation(relation)`: keep those not equal to the argument. -/
def Sim.remove_relation (s : Sim) (r : Relation) : Sim :=
  { s with relations := s.relations.filter (fun x => x ≠ r) }

/-- `self.attach_storage(storage)`. -/
def Sim.attach_storage (s : Sim) (m : StorageMount) : Sim :=
  { s with storage_mounts := s.storage_mounts ++ [m] }

/-- `self.detach_storage(storage)`. -/
def Sim.detach_storage (s : Sim) (m : StorageMount) : Sim :=
  { s with storage_mounts := s.storage_mounts.filter (fun x => x ≠ m) }

/-- `subject.is_joined = b`: Python mutates the shared `Relation` object; we
update the entries of `relations` equal to the subject (the aliased view the
engine consults — see the header comment). -/
def Sim.set_joined (s : Sim) (r : Relation) (b : Bool) : Sim :=
  { s with relations := s.relations.map (fun x => if x = r then { x with is_joined := b } else x) }

/-- `possible_actions.add(a)` (set semantics over a list: no duplicates,
insertion ordered). -/
def pool_add (l : List Action) (a : Action) : List Action :=
  if a ∈ l then l else l ++ [a]

/-- The result of one simulator step: the possible exception, plus the state
the step had reached when it returned or raised. -/
structure StepRes where
  err : Option SimError
  sim : Sim
  rand : RandState

/-- Sequencing: stop at the first exception, keeping the state reached. -/
def StepRes.andThen (r : StepRes) (f : Sim → RandState → StepRes) : StepRes :=
  match r.err with
  | some _ => r
  | none => f r.sim r.rand

/-! ## `_queue`: the event queue and probabilistic injector -/

/-- One iteration of the `for random_event in allow:` loop of `_queue`, for
the kind `k`: skip if disallowed; look up the chance;
`if chance and random.random() < chance:` (note: `chance = 0` short-circuits
without drawing) synthesize one occurrence — a randomly chosen container's
pebble-ready if the kind is `pebble-ready`, the platform has pebble and there
are containers, else a raw `Event(kind)` — and `random_insert` it into the
local sequence. -/
def Sim.queue_step (s : Sim) (p : Phase) (k : String) (disallow : List String)
    (seq : List Event) (rs : RandState) : Option SimError × List Event × RandState :=
  if k ∈ disallow then (none, seq, rs)
  else
    let chance := event_chances p k
    if chance = 0 then (none, seq, rs)
    else
      let (u, rs₁) := rs.unitDraw
      if u < chance then
        if k = pebble_ready_kind ∧ s.has_pebble ∧ s.containers ≠ [] then
          let (d, rs₂) := rs₁.draw
          let c := s.containers.getD (d % s.containers.length) ⟨""⟩
          random_insert seq c.pebble_ready rs₂
        else random_insert seq ⟨k⟩ rs₁
      else (none, seq, rs₁)

/-- The `for random_event in allow:` loop of `_queue`, building the local
`sequence` list (a list of events). -/
def Sim.queue_loop (s : Sim) (p : Phase) :
    List String → List String → List Event → RandState →
    Option SimError × List Event × RandState
  | [], _, seq, rs => (none, seq, rs)
  | k :: rest, disallow, seq, rs =>
    match s.queue_step p k disallow seq rs with
    | (some e, seq', rs') => (some e, seq', rs')
    | (none, seq', rs') => s.queue_loop p rest disallow seq' rs'

/-- `self._queue(event, allow, disallow)`: build the local sequence starting
as `[event]`, run the injection loop, then `scenario.extend(sequence)`.
Looking up `self.scenario[self.phase]` with `phase = None` would raise
`KeyError`. -/
def Sim.queue (s : Sim) (ev : Event) (allow disallow : List String) (rs : RandState) : StepRes :=
  match s.phase with
  | Option.none => ⟨some SimError.keyError, s, rs⟩
  | Option.some p =>
    match s.queue_loop p allow disallow [ev] rs with
    | (some e, _, rs') => ⟨some e, s, rs'⟩
    | (none, seq, rs') => ⟨none, s.setScenario p (s.scenario p ++ seq.map Entry.event), rs'⟩

/-- Queue a list of events in order with the default `allow` (used for the
`for` loops of `_run_setup` / `_run_teardown`). -/
def queue_events : List Event → Sim → RandState → StepRes
  | [], s, rs => ⟨none, s, rs⟩
  | e :: rest, s, rs => (s.queue e default_allow [] rs).andThen (queue_events rest)

/-! ## `_close_phase` and `_set_phase` -/

/-- The `for container in self.containers:` loop of `_close_phase`: insert
`container.pebble_ready` at a random index of the phase trace when absent. -/
def close_phase_containers : List Container → Sim → Phase → RandState → StepRes
  | [], s, _, rs => ⟨none, s, rs⟩
  | c :: rest, s, p, rs =>
    if Entry.event c.pebble_ready ∈ s.scenario p then close_phase_containers rest s p rs
    else
      match random_insert (s.scenario p) (Entry.event c.pebble_ready) rs with
      | (some e, _, rs') => ⟨some e, s, rs'⟩
      | (none, tr, rs') => close_phase_containers rest (s.setScenario p tr) p rs'

/-- `self._close_phase(phase)`.  The invocation is recorded in the ghost
`closed_log`.  The second block guards on `update_status not in scenario`:
Python compares the raw string against `Event`/`Action` entries, which is
never equal, so that inner test is always true (the block is unreachable
anyway since `update_status` is never must-occur). -/
def Sim.close_phase (s₀ : Sim) (p : Phase) (rs : RandState) : StepRes :=
  let s := { s₀ with closed_log := s₀.closed_log ++ [p] }
  let step₁ :=
    if s.has_pebble && event_must_occur p pebble_ready_kind then
      close_phase_containers s.containers s p rs
    else ⟨none, s, rs⟩
  step₁.andThen fun s₁ rs₁ =>
    if event_must_occur p update_status_kind then
      match random_insert (s₁.scenario p) (Entry.event ⟨update_status_kind⟩) rs₁ with
      | (some e, _, rs₂) => ⟨some e, s₁, rs₂⟩
      | (none, tr, rs₂) => ⟨none, s₁.setScenario p tr, rs₂⟩
    else ⟨none, s₁, rs₁⟩

/-- `with self._set_phase(phase): body`.  `_set_phase` is a
`@contextmanager` whose generator has no `try/finally`: when the body raises,
the exception propagates at the `yield` and neither `self._close_phase(phase)`
nor the restoration of `self.phase` runs. -/
def Sim.with_phase (s : Sim) (p : Phase) (body : Sim → RandState → StepRes)
    (rs : RandState) : StepRes :=
  let old := s.phase
  let r := body { s with phase := some p } rs
  match r.err with
  | some _ => r
  | none =>
    (r.sim.close_phase p r.rand).andThen fun s' rs' =>
      ⟨none, { s' with phase := old }, rs'⟩

/-! ## `_exec`: the action execution engine -/

/-- `if consume: self.possible_actions.remove(action)`.  `set.remove` raises
`KeyError` when the element is absent. -/
def Sim.consume_action (s : Sim) (a : Action) (consume : Bool) (rs : RandState) : StepRes :=
  if consume then
    if a ∈ s.possible_actions then
      ⟨none, { s with possible_actions := s.possible_actions.erase a }, rs⟩
    else ⟨some SimError.keyError, s, rs⟩
  else ⟨none, s, rs⟩

/-- The `action_subj_type is Relation` arm of `_exec`'s dispatch. -/
def Sim.exec_relation (s : Sim) (action : Action) (subj : Relation) (rs : RandState) : StepRes :=
  if action.name = "change" then
    -- this can happen multiple times: consume = False
    (s.queue subj.changed default_allow [] rs).andThen fun s₁ rs₁ =>
      s₁.consume_action action false rs₁
  else if action.name = "create" then
    (s.queue subj.created default_allow [] rs).andThen fun s₁ rs₁ =>
      (s₁.add_relation subj).consume_action action true rs₁
  else if action.name = "joined" then
    -- note: the factory `Relation.join` produces the name "join", which this
    -- dispatch does not recognize; only the name "joined" reaches this branch
    if subj ∉ s.relations then
      ⟨some (SimError.runtimeError "attempting to join non-existing relation"), s, rs⟩
    else if subj.is_joined then
      ⟨some (SimError.runtimeError "attempting to re-join relation"), s, rs⟩
    else
      -- joined and IMMEDIATELY AFTER, changed (injection disabled)
      (s.queue subj.joined [] [] rs).andThen fun s₁ rs₁ =>
      (s₁.queue subj.changed [] [] rs₁).andThen fun s₂ rs₂ =>
      (s₂.set_joined subj true).consume_action action true rs₂
  else if action.name = "break" then
    ((s.remove_relation subj).queue subj.broken default_allow [] rs).andThen fun s₁ rs₁ =>
      s₁.consume_action action true rs₁
  else if action.name = "depart" then
    if subj ∉ s.relations then
      ⟨some (SimError.runtimeError "attempting to depart non-existing relation"), s, rs⟩
    else if !subj.is_joined then
      ⟨some (SimError.runtimeError "attempting to depart non-joined relation"), s, rs⟩
    else
      -- the source sets is_joined = False and queues nothing
      (s.set_joined subj false).consume_action action true rs
  else ⟨some (SimError.valueError "Relation-action not recognized"), s, rs⟩

/-- The `action_subj_type is StorageMount` arm of `_exec`'s dispatch. -/
def Sim.exec_storage (s : Sim) (action : Action) (subj : StorageMount) (rs : RandState) : StepRes :=
  if action.name = "attach" then
    if subj ∈ s.storage_mounts then
      ⟨some (SimError.runtimeError "attempting to re-attach storage"), s, rs⟩
    else
      ((s.attach_storage subj).queue subj.attached default_allow [] rs).andThen fun s₁ rs₁ =>
        s₁.consume_action action true rs₁
  else if action.name = "detach" then
    if subj ∉ s.storage_mounts then
      ⟨some (SimError.runtimeError "attempting to detach unknown storage"), s, rs⟩
    else
      ((s.detach_storage subj).queue subj.detached default_allow [] rs).andThen fun s₁ rs₁ =>
        s₁.consume_action action true rs₁
  else ⟨some (SimError.valueError "StorageMount-action not recognized"), s, rs⟩

/-- The `for relation in self.relations:` loop of the `scale+` branch. -/
def scale_up_loop : List Relation → Sim → RandState → StepRes
  | [], s, rs => ⟨none, s, rs⟩
  | r :: rest, s, rs =>
    if r.is_joined then
      let s₁ := { s with scale := s.scale + 1,
                         possible_actions := pool_add s.possible_actions Action.scale_down }
      (s₁.queue r.joined [] [] rs).andThen fun s₂ rs₂ =>
      (s₂.queue r.changed [] [] rs₂).andThen fun s₃ rs₃ =>
      scale_up_loop rest s₃ rs₃
    else scale_up_loop rest s rs

/-- The `for relation in self.relations:` loop of the `scale-` branch,
threading the `consume` flag (set when `self.scale == 1`). -/
def scale_down_loop : List Relation → Bool → Sim → RandState → StepRes × Bool
  | [], c, s, rs => (⟨none, s, rs⟩, c)
  | r :: rest, c, s, rs =>
    if r.is_joined then
      let c' := if s.scale = 1 then true else c
      match s.queue r.departed default_allow [] rs with
      | ⟨some e, s', rs'⟩ => (⟨some e, s', rs'⟩, c')
      | ⟨none, s', rs'⟩ => scale_down_loop rest c' s' rs'
    else scale_down_loop rest c s rs

/-- The `subject is None` arm of `_exec`'s dispatch.  Python uses four
independent `if` statements over mutually exclusive names with no final
`else`, so an unrecognized subject-less name is a silent no-op with
`consume = False`. -/
def Sim.exec_generic (s : Sim) (action : Action) (rs : RandState) : StepRes :=
  if action.name = "config-change" then
    (s.queue config_changed default_allow [] rs).andThen fun s₁ rs₁ =>
      s₁.consume_action action false rs₁
  else if action.name = "scale+" then
    (scale_up_loop s.relations s rs).andThen fun s₁ rs₁ =>
      s₁.consume_action action false rs₁
  else if action.name = "scale-" then
    match scale_down_loop s.relations false s rs with
    | (⟨some e, s', rs'⟩, _) => ⟨some e, s', rs'⟩
    | (⟨none, s', rs'⟩, c) => s'.consume_action action c rs'
  else if action.name = "leadership_change" then
    if s.is_leader then
      ({ s with is_leader := false }.queue leader_settings_changed default_allow [] rs).andThen
        fun s₁ rs₁ => s₁.consume_action action false rs₁
    else
      ({ s with is_leader := true }.queue leader_elected default_allow [] rs).andThen
        fun s₁ rs₁ => s₁.consume_action action false rs₁
  else s.consume_action action false rs

/-- `self._exec(action)`: append the `Action` entry to the current phase's
trace, dispatch on the subject's type and the action name, then remove the
action from the pool if still to be consumed. -/
def Sim.exec (s₀ : Sim) (action : Action) (rs : RandState) : StepRes :=
  match s₀.phase with
  | Option.none => ⟨some SimError.keyError, s₀, rs⟩
  | Option.some p =>
    let s := s₀.setScenario p (s₀.scenario p ++ [Entry.action action])
    match action.subject with
    | Subject.rel subj => s.exec_relation action subj rs
    | Subject.storage subj => s.exec_storage action subj rs
    | Subject.nothing => s.exec_generic action rs

/-! ## Phase bodies and `run` -/

/-- `self._run_setup()`.  N.B. the Python guard
`if peer_relations := self._peer_relations:` tests the truthiness of a
`filter` object, which is always true regardless of whether any peer
relation exists, so the peer block (including the leadership event) runs
unconditionally; with no peer relations the inner `for` loop is empty but
the leadership event is still queued. -/
def Sim.run_setup (s : Sim) (rs : RandState) : StepRes :=
  (queue_events (s.storage_mounts.map StorageMount.attached) s rs).andThen fun s₁ rs₁ =>
  (s₁.queue install default_allow [] rs₁).andThen fun s₂ rs₂ =>
  (queue_events (s₂.peer_relations.map Relation.created) s₂ rs₂).andThen fun s₃ rs₃ =>
  ((if s₃.is_leader then s₃.queue leader_elected default_allow [] rs₃
    else s₃.queue leader_settings_changed default_allow [] rs₃)).andThen fun s₄ rs₄ =>
  (s₄.queue config_changed default_allow [] rs₄).andThen fun s₅ rs₅ =>
  s₅.queue start default_allow [] rs₅

/-- The `while n <= max_operation_length:` loop of `_run_operation`, with the
remaining iteration count as fuel (`max_operation_length + 1` iterations from
`n = 0`).  `random.choice(tuple(possible_actions))` raises `IndexError` on an
empty pool — the only place `IndexError` can arise. -/
def run_operation_loop : Nat → Sim → RandState → StepRes
  | 0, s, rs => ⟨none, s, rs⟩
  | Nat.succ k, s, rs =>
    if s.possible_actions.length = 0 then ⟨some SimError.indexError, s, rs⟩
    else
      let (d, rs₁) := rs.draw
      let a := s.possible_actions.getD (d % s.possible_actions.length) Action.change_config
      (s.exec a rs₁).andThen fun s' rs' => run_operation_loop k s' rs'

/-- `self._run_operation()`. -/
def Sim.run_operation (s : Sim) (rs : RandState) : StepRes :=
  run_operation_loop (s.max_operation_length + 1) s rs

/-- `self._run_teardown()`: break all relations, detach all storage, then
`stop` and `remove`. -/
def Sim.run_teardown (s : Sim) (rs : RandState) : StepRes :=
  (queue_events (s.relations.map Relation.broken) s rs).andThen fun s₁ rs₁ =>
  (queue_events (s₁.storage_mounts.map StorageMount.detached) s₁ rs₁).andThen fun s₂ rs₂ =>
  (s₂.queue stop default_allow [] rs₂).andThen fun s₃ rs₃ =>
  s₃.queue remove default_allow [] rs₃

/-- The setup and operation phases of `run()` (the part before teardown). -/
def Sim.run_pre_teardown (s : Sim) (rs : RandState) : StepRes :=
  (s.with_phase Phase.setup Sim.run_setup rs).andThen fun s₁ rs₁ =>
  s₁.with_phase Phase.operation Sim.run_operation rs₁

/-- `self.run()`: the three phases in order, each in its `_set_phase` scope. -/
def Sim.run (s : Sim) (rs : RandState) : StepRes :=
  (s.run_pre_teardown rs).andThen fun s₂ rs₂ =>
  s₂.with_phase Phase.teardown Sim.run_teardown rs₂

/-! ## The constructor -/

/-- The construction-time configuration of `CharmEventSimulator.__init__`,
with the source's defaults.  `max_operation_length` and `scale` are Python
ints used as counts; they are embedded as `Nat` (`scale` is validated to be
at least 1, and `max_operation_length` bounds a loop from 0). -/
structure Config where
  is_leader : Bool := true
  relations : List Relation := []
  containers : List Container := [⟨"workload"⟩]
  storage_mounts : List StorageMount := []
  potential_relations : List Relation := []
  potential_storage_mounts : List StorageMount := []
  max_operation_length : Nat := 10
  scale : Nat := 1
  platform : Platform := Platform.k8s
deriving Repr

/-- The `[relation.change for relation in relations]` comprehension: each
access draws the `Source` of that relation's `change` action. -/
def build_changes : List Relation → RandState → List Action × RandState
  | [], rs => ([], rs)
  | r :: rest, rs =>
    let (a, rs₁) := r.change rs
    let (more, rs₂) := build_changes rest rs₁
    (a :: more, rs₂)

/-- `CharmEventSimulator.__init__`: validate (`scale >= 1`; no peer relation
among `potential_relations`), then build the `possible_actions` pool in the
source's order (storage detaches, relation changes, non-peer destroys, the
three generic actions, potential creates, potential attaches; plus
`scale_down` when `scale > 1`). -/
def init (cfg : Config) (rs : RandState) : Except SimError (Sim × RandState) :=
  if cfg.scale < 1 then Except.error (SimError.valueError "scale must be at least 1")
  else if cfg.potential_relations.any (fun r => r.is_peer) then
    Except.error (SimError.valueError "peer relations cannot be potential")
  else
    let changes := build_changes cfg.relations rs
    let lead := Action.leadership_change changes.2
    let base : List Action :=
      cfg.storage_mounts.map StorageMount.detach ++ changes.1 ++
      (cfg.relations.filter (fun r => !r.is_peer)).map Relation.destroy ++
      [Action.change_config, Action.scale_up, lead.1] ++
      cfg.potential_relations.map Relation.create ++
      cfg.potential_storage_mounts.map StorageMount.attach
    let pool₀ := base.foldl pool_add []
    let pool := if cfg.scale > 1 then pool_add pool₀ Action.scale_down else pool₀
    Except.ok
      ({ max_operation_length := cfg.max_operation_length
         is_leader := cfg.is_leader
         scale := cfg.scale
         containers := cfg.containers
         relations := cfg.relations
         storage_mounts := cfg.storage_mounts
         potential_relations := cfg.potential_relations
         potential_storage_mounts := cfg.potential_storage_mounts
         platform := cfg.platform
         has_pebble := cfg.platform == Platform.k8s
         possible_actions := pool
         phase := Option.none
         setup_trace := []
         operation_trace := []
         teardown_trace := []
         closed_log := [] }, lead.2)

/-- Construct a simulator from a configuration and run it. -/
def runFromCfg (cfg : Config) (rs : RandState) : Except SimError StepRes :=
  match init cfg rs with
  | Except.error e => Except.error e
  | Except.ok (s, rs') => Except.ok (s.run rs')

/-! ## Observations on run results (used to state concrete theorems without
mentioning the non-decidable `RandState` component) -/

/-- The exception with which a constructed-and-run simulation ended
(`none` = completed). -/
def run_err (r : Except SimError StepRes) : Option SimError :=
  match r with
  | Except.ok st => st.err
  | Except.error e => some e

/-- The trace of one phase after a COMPLETED run (else `none`). -/
def run_trace (r : Except SimError StepRes) (p : Phase) : Option (List Entry) :=
  match r with
  | Except.ok st => if st.err = none then some (st.sim.scenario p) else Option.none
  | Except.error _ => Option.none

/-- The ghost log of phase-close-hook invocations of a constructed-and-run
simulation (also available when the run aborted with an exception). -/
def run_closed (r : Except SimError StepRes) : Option (List Phase) :=
  match r with
  | Except.ok st => some st.sim.closed_log
  | Except.error _ => Option.none

/-- A placeholder simulator state (used only to give total projections for
witnesses). -/
def dummySim : Sim :=
  { max_operation_length := 0, is_leader := true, scale := 1, containers := []
    relations := [], storage_mounts := [], potential_relations := []
    potential_storage_mounts := [], platform := Platform.lxd, has_pebble := false
    possible_actions := [], phase := Option.none, setup_trace := []
    operation_trace := [], teardown_trace := [], closed_log := [] }

def dummyStep : StepRes := ⟨none, dummySim, ⟨fun _ => 0, 0⟩⟩

/-- Extract the `StepRes` of a run that is known to have been constructed
(defaulting otherwise). -/
def stepOf (r : Except SimError StepRes) : StepRes :=
  match r with
  | Except.ok st => st
  | Except.error _ => dummyStep

/-- Extract the constructed simulator/stream of an `init` known to have
succeeded (defaulting otherwise). -/
def initOr (r : Except SimError (Sim × RandState)) : Sim × RandState :=
  match r with
  | Except.ok p => p
  | Except.error _ => (dummySim, ⟨fun _ => 0, 0⟩)

/-- The number of `Action` entries in a trace. -/
def countActions (l : List Entry) : Nat :=
  l.countP (fun x => match x with | Entry.action _ => true | Entry.event _ => false)

/-! ## Concrete fixtures -/

/-- A pseudorandom stream that suppresses every injection (unit draws of
`999/1000`) — convenient for readable concrete traces. -/
def rsHigh : RandState := ⟨fun _ => 999, 0⟩

/-- A constant-0 stream. -/
def rsZero : RandState := ⟨fun _ => 0, 0⟩

/-- A constant-4 stream. -/
def rsFour : RandState := ⟨fun _ => 4, 0⟩

/-- A configuration with one ordinary (non-peer) relation and no peer
relation, on lxd with no containers so that the setup trace stays minimal. -/
def c1cfg : Config :=
  { relations := [⟨"db", false, false⟩], containers := [], platform := Platform.lxd
    max_operation_length := 0 }

/-- The subject relation of the `join` / `depart` engine fixtures. -/
def dbRel : Relation := ⟨"db", false, false⟩

/-- A simulator state in the operation phase whose relations contain `dbRel`
(not joined) and whose pool contains exactly its `join` factory action. -/
def c2sim : Sim :=
  { dummySim with relations := [dbRel], possible_actions := [dbRel.join]
                  phase := some Phase.operation }

/-- A joined relation for the `depart` fixture. -/
def dbJoined : Relation := ⟨"db", false, true⟩

/-- A simulator state in the operation phase whose relations contain
`dbJoined` (joined) and whose pool contains exactly its `depart` action. -/
def c3sim : Sim :=
  { dummySim with relations := [dbJoined], possible_actions := [dbJoined.depart]
                  phase := some Phase.operation }

/-- A configuration whose potential storage duplicates an attached mount, so
that drawing its `attach` action raises `RuntimeError` mid-operation: with
the constant-4 stream the first operation draw picks exactly that action. -/
def c4cfg : Config :=
  { storage_mounts := [⟨"s1"⟩], potential_storage_mounts := [⟨"s1"⟩]
    max_operation_length := 0 }

/-- A small complete-run configuration shared by several witnesses. -/
def wcfg : Config :=
  { relations := [⟨"http", false, false⟩], storage_mounts := [⟨"s1"⟩]
    max_operation_length := 0 }

/-- The pre-teardown intermediate state of `wcfg` under `rsHigh`. -/
def wpre : StepRes :=
  match init wcfg rsHigh with
  | Except.ok (s, rs') => s.run_pre_teardown rs'
  | Except.error _ => dummyStep

/-! ## Trace predicates -/

/-- An entry is the `joined` event of some relation (equivalently: its event
name ends in the 16-character suffix `"-relation-joined"`, which no other
event constructor can produce). -/
def entryJoined (x : Entry) : Prop :=
  ∃ n : String, x = Entry.event ⟨n ++ "-relation-joined"⟩

/-- Every `joined` event in the trace is immediately followed by the
`changed` event of the same relation. -/
def JoinedOk (l : List Entry) : Prop :=
  ∀ i n, l.get? i = some (Entry.event ⟨n ++ "-relation-joined"⟩) →
    l.get? (i + 1) = some (Entry.event ⟨n ++ "-relation-changed"⟩)

/-- The trace contains no `joined` event at all. -/
def NoJoined (l : List Entry) : Prop :=
  ∀ x ∈ l, ¬ entryJoined x

/-- The run-long trace invariant: `joined` events can only ever appear in the
operation trace, where each is immediately followed by its `changed`. -/
def TraceInv (s : Sim) : Prop :=
  NoJoined (s.scenario Phase.setup) ∧ JoinedOk (s.scenario Phase.operation) ∧
    NoJoined (s.scenario Phase.teardown)

/-- An event that the injector may synthesize into a local sequence: a
configured container's pebble-ready, or a raw `Event(kind)` for an allowed
kind. -/
def Background (cs : List Container) (allow : List String) (e : Event) : Prop :=
  (∃ c ∈ cs, e = c.pebble_ready) ∨ (∃ k ∈ allow, e = Event.mk k)

/-- The three always-available subject-less actions (`config-change`,
`scale+`, and the leadership change with whatever `Source` it was built
with). -/
def TrioIn (s : Sim) : Prop :=
  Action.change_config ∈ s.possible_actions ∧ Action.scale_up ∈ s.possible_actions ∧
    ∃ src, Action.mk Subject.nothing "leadership_change" src ∈ s.possible_actions

/-- An event whose name is not of the form `<n>-relation-joined`. -/
def SafeEvent (e : Event) : Prop :=
  ∀ n : String, e.name ≠ n ++ "-relation-joined"

/-! # Lemmas and theorems -/

/-! ## List and string toolkit -/

theorem insertIdx_perm_cons {α : Type} (a : α) :
    ∀ (n : Nat) (l : List α), n ≤ l.length → (l.insertIdx n a).Perm (a :: l)
  | 0, l, _ => by simp [List.insertIdx_zero]
  | n + 1, [], h => by simp at h
  | n + 1, x :: xs, h => by
    rw [List.insertIdx_succ_cons]
    exact ((insertIdx_perm_cons a n xs (by simpa using h)).cons x).trans
      (List.Perm.swap a x xs)

/-- If the witnesses of `tA` can only sit in the left part of an append and
those of `tB` only in the right part, then every index of `tA` is below every
index of `tB`. -/
theorem lt_of_get?_split {α : Type} {l₁ l₂ : List α} {tA tB : α}
    (hA : ∀ x ∈ l₂, x ≠ tA) (hB : ∀ x ∈ l₁, x ≠ tB) :
    ∀ i j, (l₁ ++ l₂).get? i = some tA → (l₁ ++ l₂).get? j = some tB → i < j := by
  intro i j hi hj
  have hil : i < l₁.length := by
    by_contra hc
    rw [List.get?_append_right (Nat.le_of_not_lt hc)] at hi
    exact hA _ (List.get?_mem hi) rfl
  have hjl : l₁.length ≤ j := by
    by_contra hc
    rw [List.get?_append (Nat.lt_of_not_le hc)] at hj
    exact hB _ (List.get?_mem hj) rfl
  exact Nat.lt_of_lt_of_le hil hjl

theorem str_data_append (a b : String) : (a ++ b).data = a.data ++ b.data :=
  String.data_append a b

theorem str_ext {a b : String} (h : a.data = b.data) : a = b := by
  cases a; cases b; exact congrArg String.mk h

theorem empty_append_str (w : String) : "" ++ w = w := by
  apply str_ext; rw [str_data_append]; rfl

/-- Two appended strings whose suffixes (each of length at least 3) disagree
on their last three characters are never equal. -/
theorem append_ne_of_rev3 (u v : String) (h3u : 3 ≤ u.data.length)
    (h3v : 3 ≤ v.data.length)
    (hne : u.data.reverse.take 3 ≠ v.data.reverse.take 3) (a b : String) :
    a ++ u ≠ b ++ v := by
  intro h
  have hd : a.data ++ u.data = b.data ++ v.data := by
    rw [← str_data_append, ← str_data_append, h]
  have hr := congrArg List.reverse hd
  rw [List.reverse_append, List.reverse_append] at hr
  have ht := congrArg (List.take 3) hr
  rw [List.take_append_of_le_length (by simpa using h3u),
      List.take_append_of_le_length (by simpa using h3v)] at ht
  exact hne ht

/-- A plain literal, seen as `"" ++ w`, versus an appended suffix. -/
theorem lit_ne_append_of_rev3 (w v : String) (h3w : 3 ≤ w.data.length)
    (h3v : 3 ≤ v.data.length)
    (hne : w.data.reverse.take 3 ≠ v.data.reverse.take 3) (b : String) :
    w ≠ b ++ v := by
  intro h
  exact append_ne_of_rev3 w v h3w h3v hne "" b (by rw [empty_append_str, h])

theorem str_append_right_cancel {a b u : String} (h : a ++ u = b ++ u) : a = b := by
  apply str_ext
  have hd : a.data ++ u.data = b.data ++ u.data := by
    rw [← str_data_append, ← str_data_append, h]
  exact List.append_cancel_right hd

/-! ## Which event names can be a `joined` event

Only `Relation.joined` produces a name ending in `-relation-joined`; every
other event constructor is `SafeEvent`.  All derived suffixes and literals
are at least 3 characters long and differ from `-relation-joined` in their
last three characters. -/

theorem safeEvent_append (nm u : String) (h3 : 3 ≤ u.data.length)
    (hne : u.data.reverse.take 3 ≠ ("-relation-joined").data.reverse.take 3) :
    SafeEvent ⟨nm ++ u⟩ := by
  intro n
  have := append_ne_of_rev3 u "-relation-joined" h3 (by decide) hne nm n
  simpa [SafeEvent] using this

theorem safeEvent_lit (w : String) (h3 : 3 ≤ w.data.length)
    (hne : w.data.reverse.take 3 ≠ ("-relation-joined").data.reverse.take 3) :
    SafeEvent ⟨w⟩ := by
  intro n
  exact lit_ne_append_of_rev3 w "-relation-joined" h3 (by decide) hne n

theorem safe_created (r : Relation) : SafeEvent r.created :=
  safeEvent_append r.name "-relation-created" (by decide) (by decide)

theorem safe_broken (r : Relation) : SafeEvent r.broken :=
  safeEvent_append r.name "-relation-broken" (by decide) (by decide)

theorem safe_changed (r : Relation) : SafeEvent r.changed :=
  safeEvent_append r.name "-relation-changed" (by decide) (by decide)

theorem safe_departed (r : Relation) : SafeEvent r.departed :=
  safeEvent_append r.name "-relation-departed" (by decide) (by decide)

theorem safe_attached (m : StorageMount) : SafeEvent m.attached :=
  safeEvent_append m.name "-storage-attached" (by decide) (by decide)

theorem safe_detached (m : StorageMount) : SafeEvent m.detached :=
  safeEvent_append m.name "-storage-detached" (by decide) (by decide)

theorem safe_pebble (c : Container) : SafeEvent c.pebble_ready :=
  safeEvent_append c.name "-pebble-ready" (by decide) (by decide)

theorem safe_install : SafeEvent install := safeEvent_lit "install" (by decide) (by decide)

theorem safe_start : SafeEvent start := safeEvent_lit "start" (by decide) (by decide)

theorem safe_stop : SafeEvent stop := safeEvent_lit "stop" (by decide) (by decide)

theorem safe_remove : SafeEvent remove := safeEvent_lit "remove" (by decide) (by decide)

theorem safe_config_changed : SafeEvent config_changed :=
  safeEvent_lit "config-changed" (by decide) (by decide)

theorem safe_leader_elected : SafeEvent leader_elected :=
  safeEvent_lit "leader-elected" (by decide) (by decide)

theorem safe_leader_settings_changed : SafeEvent leader_settings_changed :=
  safeEvent_lit "leader-settings-changed" (by decide) (by decide)

theorem safe_raw_kind (k : String) (hk : k = pebble_ready_kind ∨ k = update_status_kind) :
    SafeEvent ⟨k⟩ := by
  rcases hk with h | h <;> subst h
  · exact safeEvent_lit pebble_ready_kind (by decide) (by decide)
  · exact safeEvent_lit update_status_kind (by decide) (by decide)

/-- A background (injected) event is never a `joined` event, provided the
allowed kinds are among the two generic kinds (true at every call site). -/
theorem safe_background {cs : List Container} {allow : List String} {e : Event}
    (hallow : ∀ k ∈ allow, k = pebble_ready_kind ∨ k = update_status_kind)
    (h : Background cs allow e) : SafeEvent e := by
  rcases h with ⟨c, _, rfl⟩ | ⟨k, hk, rfl⟩
  · exact safe_pebble c
  · exact safe_raw_kind k (hallow k hk)

theorem not_entryJoined_event {e : Event} (h : SafeEvent e) : ¬ entryJoined (Entry.event e) := by
  rintro ⟨n, hn⟩
  injection hn with h'
  exact h n (congrArg Event.name h')

theorem not_entryJoined_action (a : Action) : ¬ entryJoined (Entry.action a) := by
  rintro ⟨n, hn⟩
  cases hn

/-! ## Frame lemmas for `setScenario` and `andThen` -/

@[simp] theorem setScenario_scenario_same (s : Sim) (p : Phase) (tr : List Entry) :
    (s.setScenario p tr).scenario p = tr := by
  cases p <;> rfl

theorem setScenario_scenario_ne (s : Sim) {p q : Phase} (tr : List Entry) (h : q ≠ p) :
    (s.setScenario p tr).scenario q = s.scenario q := by
  cases p <;> cases q <;> first | exact (h rfl).elim | rfl

@[simp] theorem setScenario_pool (s : Sim) (p : Phase) (tr : List Entry) :
    (s.setScenario p tr).possible_actions = s.possible_actions := by cases p <;> rfl

@[simp] theorem setScenario_phase (s : Sim) (p : Phase) (tr : List Entry) :
    (s.setScenario p tr).phase = s.phase := by cases p <;> rfl

@[simp] theorem setScenario_relations (s : Sim) (p : Phase) (tr : List Entry) :
    (s.setScenario p tr).relations = s.relations := by cases p <;> rfl

@[simp] theorem setScenario_storage (s : Sim) (p : Phase) (tr : List Entry) :
    (s.setScenario p tr).storage_mounts = s.storage_mounts := by cases p <;> rfl

@[simp] theorem setScenario_containers (s : Sim) (p : Phase) (tr : List Entry) :
    (s.setScenario p tr).containers = s.containers := by cases p <;> rfl

@[simp] theorem setScenario_has_pebble (s : Sim) (p : Phase) (tr : List Entry) :
    (s.setScenario p tr).has_pebble = s.has_pebble := by cases p <;> rfl

@[simp] theorem setScenario_is_leader (s : Sim) (p : Phase) (tr : List Entry) :
    (s.setScenario p tr).is_leader = s.is_leader := by cases p <;> rfl

@[simp] theorem setScenario_scale (s : Sim) (p : Phase) (tr : List Entry) :
    (s.setScenario p tr).scale = s.scale := by cases p <;> rfl

@[simp] theorem setScenario_max (s : Sim) (p : Phase) (tr : List Entry) :
    (s.setScenario p tr).max_operation_length = s.max_operation_length := by cases p <;> rfl

@[simp] theorem setScenario_closed_log (s : Sim) (p : Phase) (tr : List Entry) :
    (s.setScenario p tr).closed_log = s.closed_log := by cases p <;> rfl

@[simp] theorem andThen_none (s : Sim) (rs : RandState) (f : Sim → RandState → StepRes) :
    StepRes.andThen ⟨none, s, rs⟩ f = f s rs := rfl

@[simp] theorem andThen_some (e : SimError) (s : Sim) (rs : RandState)
    (f : Sim → RandState → StepRes) :
    StepRes.andThen ⟨some e, s, rs⟩ f = ⟨some e, s, rs⟩ := rfl

/-! ## `JoinedOk` toolkit -/

theorem joinedOk_nil : JoinedOk [] := by
  intro i n h
  simp at h

theorem noJoined_nil : NoJoined [] := by
  intro x hx
  simp at hx

theorem noJoined_append {l b : List Entry} (hl : NoJoined l) (hb : NoJoined b) :
    NoJoined (l ++ b) := by
  intro x hx
  rcases List.mem_append.mp hx with h | h
  · exact hl x h
  · exact hb x h

theorem joinedOk_of_noJoined {l : List Entry} (h : NoJoined l) : JoinedOk l := by
  intro i n hi
  exact absurd ⟨n, rfl⟩ (h _ (List.get?_mem hi))

/-- Appending a block containing no `joined` event preserves `JoinedOk`. -/
theorem joinedOk_append {l b : List Entry} (hl : JoinedOk l) (hb : NoJoined b) :
    JoinedOk (l ++ b) := by
  intro i n hi
  have hil : i < l.length := by
    by_contra hc
    rw [List.get?_append_right (Nat.le_of_not_lt hc)] at hi
    exact hb _ (List.get?_mem hi) ⟨n, rfl⟩
  rw [List.get?_append hil] at hi
  have hnext := hl i n hi
  have hi1 : i + 1 < l.length := by
    by_contra hc
    rw [List.get?_eq_none.mpr (Nat.le_of_not_lt hc)] at hnext
    cases hnext
  rw [List.get?_append hi1]
  exact hnext

/-- Appending the adjacent pair `joined r, changed r` preserves `JoinedOk`. -/
theorem joinedOk_append_pair {l : List Entry} (hl : JoinedOk l) (r : Relation) :
    JoinedOk (l ++ [Entry.event r.joined, Entry.event r.changed]) := by
  intro i n hi
  rcases Nat.lt_trichotomy i l.length with hil | hil | hil
  · rw [List.get?_append hil] at hi
    have hnext := hl i n hi
    have hi1 : i + 1 < l.length := by
      by_contra hc
      rw [List.get?_eq_none.mpr (Nat.le_of_not_lt hc)] at hnext
      cases hnext
    rw [List.get?_append hi1]
    exact hnext
  · -- the joined element itself: next is the changed of the same relation
    subst hil
    rw [List.get?_append_right (Nat.le_refl _), Nat.sub_self] at hi
    simp only [List.get?, Option.some.injEq, Entry.event.injEq] at hi
    have hname : r.name = n := by
      have h' : r.name ++ "-relation-joined" = n ++ "-relation-joined" :=
        congrArg Event.name hi
      exact str_append_right_cancel h'
    have hgoal : (l ++ [Entry.event r.joined, Entry.event r.changed]).get? (l.length + 1) =
        some (Entry.event r.changed) := by
      rw [List.get?_append_right (by omega)]
      have h1 : l.length + 1 - l.length = 1 := by omega
      rw [h1]
      rfl
    rw [hgoal, Relation.changed, hname]
  · -- indices past the pair's head: the entry there is `changed` or out of
    -- range, neither of which is a joined event
    have h2 : l.length ≤ i := Nat.le_of_lt hil
    rw [List.get?_append_right h2] at hi
    rcases Nat.exists_eq_add_of_lt hil with ⟨k, hk⟩
    subst hk
    have hk1 : l.length + k + 1 - l.length = k + 1 := by omega
    rw [hk1] at hi
    match k, hi with
    | 0, hi =>
      simp only [List.get?, Option.some.injEq, Entry.event.injEq] at hi
      exact absurd (congrArg Event.name hi) ((safe_changed r) n)
    | Nat.succ k', hi =>
      simp only [List.get?] at hi
      cases hi

/-! ## Shape of `_queue` -/

theorem getD_mem_of_lt {α : Type} :
    ∀ (l : List α) (n : Nat) (d : α), n < l.length → l.getD n d ∈ l
  | a :: _, 0, _, _ => List.mem_cons_self a _
  | a :: l, n + 1, d, h =>
    List.mem_cons_of_mem a (getD_mem_of_lt l n d (by simpa using h))

theorem random_insert_spec {α : Type} (l : List α) (a : α) (rs : RandState) (h : l ≠ []) :
    ∃ l' rs', random_insert l a rs = (none, l', rs') ∧ l'.Perm (a :: l) := by
  unfold random_insert
  have hpos : 0 < l.length := List.length_pos.mpr h
  rw [if_neg (by omega)]
  exact ⟨_, _, rfl, insertIdx_perm_cons a _ l (Nat.le_of_lt (Nat.mod_lt _ hpos))⟩

theorem background_mono {cs : List Container} {k : String} {rest : List String} {e : Event}
    (h : Background cs rest e) : Background cs (k :: rest) e := by
  rcases h with hc | ⟨k', hk', rfl⟩
  · exact Or.inl hc
  · exact Or.inr ⟨k', List.mem_cons_of_mem k hk', rfl⟩

/-- One injector iteration never raises (on a nonempty local sequence) and
either leaves the sequence alone or inserts exactly one background event. -/
theorem queue_step_spec (s : Sim) (p : Phase) (k : String) (disallow : List String)
    (seq : List Event) (rs : RandState) (h : seq ≠ []) :
    ∃ seq' rs', s.queue_step p k disallow seq rs = (none, seq', rs') ∧ seq' ≠ [] ∧
      (seq' = seq ∨ ∃ item, ((∃ c ∈ s.containers, item = c.pebble_ready) ∨ item = Event.mk k) ∧
        seq'.Perm (item :: seq)) := by
  unfold Sim.queue_step
  by_cases h1 : k ∈ disallow
  · rw [if_pos h1]; exact ⟨seq, rs, rfl, h, Or.inl rfl⟩
  · rw [if_neg h1]
    by_cases h2 : event_chances p k = 0
    · rw [if_pos h2]; exact ⟨seq, rs, rfl, h, Or.inl rfl⟩
    · rw [if_neg h2]
      simp only [RandState.unitDraw, RandState.draw]
      by_cases h3 : rs.src rs.pos % 1000 < event_chances p k
      · rw [if_pos h3]
        by_cases h4 : k = pebble_ready_kind ∧ s.has_pebble ∧ s.containers ≠ []
        · rw [if_pos h4]
          obtain ⟨l', rs', hins, hperm⟩ :=
            random_insert_spec seq
              (s.containers.getD (rs.src (rs.pos + 1) % s.containers.length) ⟨""⟩).pebble_ready
              ⟨rs.src, rs.pos + 1 + 1⟩ h
          refine ⟨l', rs', hins, ?_, Or.inr ⟨_, Or.inl ⟨_, ?_, rfl⟩, hperm⟩⟩
          · intro hnil; rw [hnil] at hperm
            exact (List.cons_ne_nil _ _) hperm.symm.eq_nil
          · refine getD_mem_of_lt _ _ _ (Nat.mod_lt _ ?_)
            exact List.length_pos.mpr h4.2.2
        · rw [if_neg h4]
          obtain ⟨l', rs', hins, hperm⟩ := random_insert_spec seq (Event.mk k) _ h
          refine ⟨l', rs', hins, ?_, Or.inr ⟨_, Or.inr rfl, hperm⟩⟩
          intro hnil; rw [hnil] at hperm
          exact (List.cons_ne_nil _ _) hperm.symm.eq_nil
      · rw [if_neg h3]
        exact ⟨seq, _, rfl, h, Or.inl rfl⟩

/-- The injector loop never raises on a nonempty local sequence and produces
a permutation of the initial sequence plus finitely many background events. -/
theorem queue_loop_shape (s : Sim) (p : Phase) :
    ∀ (allow disallow : List String) (seq₀ : List Event) (rs : RandState), seq₀ ≠ [] →
    ∃ seq rs', s.queue_loop p allow disallow seq₀ rs = (none, seq, rs') ∧ seq ≠ [] ∧
      ∃ inj, seq.Perm (seq₀ ++ inj) ∧ ∀ e ∈ inj, Background s.containers allow e := by
  intro allow
  induction allow with
  | nil =>
    intro disallow seq₀ rs h
    exact ⟨seq₀, rs, rfl, h, [], by simp, by simp⟩
  | cons k rest ih =>
    intro disallow seq₀ rs h
    obtain ⟨seq₁, rs₁, hstep, hne₁, hcase⟩ := queue_step_spec s p k disallow seq₀ rs h
    obtain ⟨seq, rs', hloop, hne, inj', hperm', hbg'⟩ := ih disallow seq₁ rs₁ hne₁
    refine ⟨seq, rs', ?_, hne, ?_⟩
    · simp only [Sim.queue_loop]
      rw [hstep]
      exact hloop
    rcases hcase with rfl | ⟨item, hitem, hpermstep⟩
    · exact ⟨inj', hperm', fun e he => background_mono (hbg' e he)⟩
    · refine ⟨item :: inj', ?_, ?_⟩
      · have h1 : seq.Perm (seq₁ ++ inj') := hperm'
        have h2 : (seq₁ ++ inj').Perm ((item :: seq₀) ++ inj') := hpermstep.append_right inj'
        have h3 : ((item :: seq₀) ++ inj') = item :: (seq₀ ++ inj') := rfl
        have h4 : (seq₀ ++ item :: inj').Perm (item :: (seq₀ ++ inj')) := List.perm_middle
        exact ((h1.trans h2).trans (by rw [h3])).trans h4.symm
      · intro e he
        rcases List.mem_cons.mp he with rfl | he'
        · rcases hitem with ⟨c, hc, rfl⟩ | rfl
          · exact Or.inl ⟨c, hc, rfl⟩
          · exact Or.inr ⟨k, List.mem_cons_self k rest, rfl⟩
        · exact background_mono (hbg' e he')

/-- `_queue` with the phase set: never raises, appends the local sequence —
the caused event plus injected background events — to the current phase's
trace, and changes nothing else. -/
theorem queue_shape (s : Sim) (ev : Event) (allow disallow : List String) (rs : RandState)
    (p : Phase) (hp : s.phase = some p) :
    ∃ (seq : List Event) (rs' : RandState), s.queue ev allow disallow rs =
        ⟨none, s.setScenario p (s.scenario p ++ seq.map Entry.event), rs'⟩ ∧
      ∃ inj, seq.Perm (ev :: inj) ∧ ∀ e ∈ inj, Background s.containers allow e := by
  obtain ⟨seq, rs', hloop, _, inj, hperm, hbg⟩ :=
    queue_loop_shape s p allow disallow [ev] rs (by simp)
  refine ⟨seq, rs', ?_, inj, by simpa using hperm, hbg⟩
  unfold Sim.queue
  rw [hp]
  simp only [hloop]

/-! ## Composition and counting toolkit -/

@[simp] theorem setScenario_self (s : Sim) (p : Phase) : s.setScenario p (s.scenario p) = s := by
  cases p <;> rfl

theorem setScenario_setScenario (s : Sim) (p : Phase) (t₁ t₂ : List Entry) :
    (s.setScenario p t₁).setScenario p t₂ = s.setScenario p t₂ := by
  cases p <;> rfl

@[simp] theorem scenario_update_closed (s : Sim) (l : List Phase) (p : Phase) :
    (({ s with closed_log := l } : Sim)).scenario p = s.scenario p := by
  cases p <;> rfl

theorem setScenario_update_closed (s : Sim) (l : List Phase) (p : Phase) (tr : List Entry) :
    ({ s with closed_log := l } : Sim).setScenario p tr =
      { s.setScenario p tr with closed_log := l } := by
  cases p <;> rfl

theorem entry_event_injective : Function.Injective Entry.event := by
  intro a b h
  injection h

theorem countActions_append (l b : List Entry) :
    countActions (l ++ b) = countActions l + countActions b :=
  List.countP_append _ l b

theorem countActions_events (seq : List Event) : countActions (seq.map Entry.event) = 0 := by
  induction seq with
  | nil => rfl
  | cons e rest ih => simpa [countActions, List.countP_cons] using ih

theorem count_event_map (x : Event) (seq : List Event) :
    (seq.map Entry.event).count (Entry.event x) = seq.count x :=
  List.count_map_of_injective seq Entry.event entry_event_injective x

/-- `_queue` with injection disabled is a pure single append. -/
theorem queue_nil_eq (s : Sim) (ev : Event) (disallow : List String) (rs : RandState)
    (p : Phase) (hp : s.phase = some p) :
    s.queue ev [] disallow rs =
      ⟨none, s.setScenario p (s.scenario p ++ [Entry.event ev]), rs⟩ := by
  unfold Sim.queue
  rw [hp]
  rfl

/-- Shape of `queue_events`: appends, to the current phase's trace, one block
whose entries are events from the queued list or injected background events;
for non-background events the block contains exactly as many occurrences as
were queued. -/
theorem queue_events_spec (p : Phase) :
    ∀ (evs : List Event) (s : Sim) (rs : RandState), s.phase = some p →
    ∃ (B : List Entry) (rs' : RandState),
      queue_events evs s rs = ⟨none, s.setScenario p (s.scenario p ++ B), rs'⟩ ∧
      (∀ x ∈ B, ∃ e : Event, x = Entry.event e ∧
        (e ∈ evs ∨ Background s.containers default_allow e)) ∧
      (∀ x : Event, ¬ Background s.containers default_allow x →
        B.count (Entry.event x) = evs.count x) := by
  intro evs
  induction evs with
  | nil =>
    intro s rs hp
    refine ⟨[], rs, by simp [queue_events], by simp, by simp⟩
  | cons e rest ih =>
    intro s rs hp
    obtain ⟨seq, rs₁, heq, inj, hperm, hbg⟩ := queue_shape s e default_allow [] rs p hp
    set s₁ := s.setScenario p (s.scenario p ++ seq.map Entry.event) with hs₁
    obtain ⟨B', rs', hrec, hmem', hcount'⟩ := ih s₁ rs₁ (by simp [hs₁, hp])
    have hcont : s₁.containers = s.containers := by simp [hs₁]
    rw [hcont] at hmem' hcount'
    refine ⟨seq.map Entry.event ++ B', rs', ?_, ?_, ?_⟩
    · show queue_events (e :: rest) s rs = _
      simp only [queue_events]
      rw [heq, andThen_none, hrec]
      rw [hs₁, setScenario_setScenario, setScenario_scenario_same, List.append_assoc]
    · intro x hx
      rcases List.mem_append.mp hx with hx | hx
      · obtain ⟨e', he', rfl⟩ := List.mem_map.mp hx
        rcases List.mem_cons.mp (hperm.mem_iff.mp he') with rfl | hinj
        · exact ⟨e', rfl, Or.inl (List.mem_cons_self _ _)⟩
        · exact ⟨e', rfl, Or.inr (hbg e' hinj)⟩
      · obtain ⟨e', he', hor⟩ := hmem' x hx
        rcases hor with h | h
        · exact ⟨e', he', Or.inl (List.mem_cons_of_mem e h)⟩
        · exact ⟨e', he', Or.inr h⟩
    · intro x hxbg
      rw [List.count_append, count_event_map, hcount' x hxbg]
      have hseq : seq.count x = (e :: inj).count x := hperm.count_eq x
      have hinj0 : inj.count x = 0 :=
        List.count_eq_zero.mpr (fun hmem => hxbg (hbg x hmem))
      rw [hseq]
      simp only [List.count_cons, hinj0]
      by_cases hxe : x = e <;> simp [hxe, List.count_cons, Nat.add_comm]

/-! ## Shape of `_close_phase` -/

theorem close_phase_op (s : Sim) (rs : RandState) :
    s.close_phase Phase.operation rs =
      ⟨none, { s with closed_log := s.closed_log ++ [Phase.operation] }, rs⟩ := by
  simp [Sim.close_phase, event_must_occur, StepRes.andThen]

theorem close_phase_teardown (s : Sim) (rs : RandState) :
    s.close_phase Phase.teardown rs =
      ⟨none, { s with closed_log := s.closed_log ++ [Phase.teardown] }, rs⟩ := by
  simp [Sim.close_phase, event_must_occur, StepRes.andThen]

/-- Shape of the container loop of `_close_phase`: on a nonempty phase trace
it never raises and inserts (anywhere in the trace) some pebble-ready events
of the listed containers. -/
theorem close_containers_spec :
    ∀ (cl : List Container) (s : Sim) (p : Phase) (rs : RandState), s.scenario p ≠ [] →
    ∃ (tr : List Entry) (rs' : RandState),
      close_phase_containers cl s p rs = ⟨none, s.setScenario p tr, rs'⟩ ∧
      ∃ ins, tr.Perm (s.scenario p ++ ins) ∧
        ∀ x ∈ ins, ∃ c ∈ cl, x = Entry.event c.pebble_ready := by
  intro cl
  induction cl with
  | nil =>
    intro s p rs h
    exact ⟨s.scenario p, rs, by simp [close_phase_containers], [], by simp, by simp⟩
  | cons c rest ih =>
    intro s p rs h
    by_cases hc : Entry.event c.pebble_ready ∈ s.scenario p
    · obtain ⟨tr, rs', hrec, ins, hperm, hins⟩ := ih s p rs h
      refine ⟨tr, rs', ?_, ins, hperm, ?_⟩
      · simp only [close_phase_containers, if_pos hc]
        exact hrec
      · intro x hx
        obtain ⟨c', hc', hx'⟩ := hins x hx
        exact ⟨c', List.mem_cons_of_mem c hc', hx'⟩
    · obtain ⟨tr₁, rs₁, hins1, hperm1⟩ :=
        random_insert_spec (s.scenario p) (Entry.event c.pebble_ready) rs h
      have hne₁ : tr₁ ≠ [] := by
        intro hnil; rw [hnil] at hperm1
        exact (List.cons_ne_nil _ _) hperm1.symm.eq_nil
      obtain ⟨tr, rs', hrec, ins, hperm, hinsm⟩ :=
        ih (s.setScenario p tr₁) p rs₁ (by simpa using hne₁)
      refine ⟨tr, rs', ?_, Entry.event c.pebble_ready :: ins, ?_, ?_⟩
      · simp only [close_phase_containers, if_neg hc]
        rw [hins1]
        show close_phase_containers rest (s.setScenario p tr₁) p rs₁ = _
        rw [hrec, setScenario_setScenario]
      · rw [setScenario_scenario_same] at hperm
        have h2 : (tr₁ ++ ins).Perm ((Entry.event c.pebble_ready :: s.scenario p) ++ ins) :=
          hperm1.append_right ins
        have h3 : ((Entry.event c.pebble_ready :: s.scenario p) ++ ins) =
            Entry.event c.pebble_ready :: (s.scenario p ++ ins) := rfl
        have h4 : (s.scenario p ++ Entry.event c.pebble_ready :: ins).Perm
            (Entry.event c.pebble_ready :: (s.scenario p ++ ins)) := List.perm_middle
        exact ((hperm.trans h2).trans (by rw [h3])).trans h4.symm
      · intro x hx
        rcases List.mem_cons.mp hx with rfl | hx'
        · exact ⟨c, List.mem_cons_self c rest, rfl⟩
        · obtain ⟨c', hc', hx''⟩ := hinsm x hx'
          exact ⟨c', List.mem_cons_of_mem c hc', hx''⟩

/-- Shape of `_close_phase` in setup, on a nonempty setup trace: never
raises, records the hook invocation, and inserts some container pebble-ready
events into the setup trace. -/
theorem close_phase_setup_spec (s : Sim) (rs : RandState)
    (hne : s.scenario Phase.setup ≠ []) :
    ∃ (tr : List Entry) (rs' : RandState),
      s.close_phase Phase.setup rs =
        ⟨none, { s.setScenario Phase.setup tr with
                    closed_log := s.closed_log ++ [Phase.setup] }, rs'⟩ ∧
      ∃ ins, tr.Perm (s.scenario Phase.setup ++ ins) ∧
        ∀ x ∈ ins, ∃ c ∈ s.containers, x = Entry.event c.pebble_ready := by
  have hupd : event_must_occur Phase.setup update_status_kind = false := by decide
  have hpeb : event_must_occur Phase.setup pebble_ready_kind = true := by decide
  cases hhp : s.has_pebble with
  | false =>
    refine ⟨s.scenario Phase.setup, rs, ?_, [], by simp, by simp⟩
    simp [Sim.close_phase, hupd, hpeb, hhp, StepRes.andThen]
  | true =>
    obtain ⟨tr, rs', hrec, ins, hperm, hinsm⟩ :=
      close_containers_spec s.containers { s with closed_log := s.closed_log ++ [Phase.setup] }
        Phase.setup rs (by simpa using hne)
    simp only [scenario_update_closed] at hperm
    refine ⟨tr, rs', ?_, ins, hperm, by simpa using hinsm⟩
    rw [hhp] at hrec
    simp only [Sim.close_phase, hupd, hpeb, hhp, Bool.and_true, if_true]
    rw [hrec]
    simp [StepRes.andThen, hupd, Sim.setScenario, hhp]

/-! ## More frame lemmas (state updates never touch the traces) -/

@[simp] theorem scenario_update_relations (s : Sim) (l : List Relation) (p : Phase) :
    ({ s with relations := l } : Sim).scenario p = s.scenario p := by cases p <;> rfl

@[simp] theorem scenario_update_storage (s : Sim) (l : List StorageMount) (p : Phase) :
    ({ s with storage_mounts := l } : Sim).scenario p = s.scenario p := by cases p <;> rfl

@[simp] theorem scenario_update_pool (s : Sim) (l : List Action) (p : Phase) :
    ({ s with possible_actions := l } : Sim).scenario p = s.scenario p := by cases p <;> rfl

@[simp] theorem scenario_update_leader (s : Sim) (b : Bool) (p : Phase) :
    ({ s with is_leader := b } : Sim).scenario p = s.scenario p := by cases p <;> rfl

@[simp] theorem scenario_update_scale_pool (s : Sim) (n : Nat) (l : List Action) (p : Phase) :
    ({ s with scale := n, possible_actions := l } : Sim).scenario p = s.scenario p := by
  cases p <;> rfl

@[simp] theorem scenario_update_phase (s : Sim) (ph : Option Phase) (p : Phase) :
    ({ s with phase := ph } : Sim).scenario p = s.scenario p := by cases p <;> rfl

theorem default_allow_ok : ∀ k ∈ default_allow, k = pebble_ready_kind ∨ k = update_status_kind := by
  intro k hk
  simpa [default_allow] using hk

/-- The block appended by a `_queue` call whose caused event is safe contains
no joined event. -/
theorem noJoined_queue_block {cs : List Container} {allow : List String} {ev : Event}
    {seq inj : List Event} (hperm : seq.Perm (ev :: inj))
    (hbg : ∀ e ∈ inj, Background cs allow e)
    (hallow : ∀ k ∈ allow, k = pebble_ready_kind ∨ k = update_status_kind)
    (hev : SafeEvent ev) : NoJoined (seq.map Entry.event) := by
  intro x hx
  obtain ⟨e, he, rfl⟩ := List.mem_map.mp hx
  rcases List.mem_cons.mp (hperm.mem_iff.mp he) with rfl | hinj
  · exact not_entryJoined_event hev
  · exact not_entryJoined_event (safe_background hallow (hbg e hinj))

/-- The master `_queue` lemma: with the phase set and a caused event that is
not a joined event, `_queue` never raises, only appends to the current
phase's trace, preserves every other component of the state, adds no action
entries, and preserves both trace invariants. -/
theorem queue_preserves (s : Sim) {p : Phase} (hp : s.phase = some p) (ev : Event)
    (allow disallow : List String) (rs : RandState)
    (hallow : ∀ k ∈ allow, k = pebble_ready_kind ∨ k = update_status_kind)
    (hev : SafeEvent ev) :
    ∃ (s' : Sim) (rs' : RandState), s.queue ev allow disallow rs = ⟨none, s', rs'⟩ ∧
      s'.phase = some p ∧ s'.possible_actions = s.possible_actions ∧
      s'.max_operation_length = s.max_operation_length ∧ s'.relations = s.relations ∧
      s'.storage_mounts = s.storage_mounts ∧ s'.containers = s.containers ∧
      s'.scale = s.scale ∧ s'.is_leader = s.is_leader ∧ s'.closed_log = s.closed_log ∧
      (∀ q, q ≠ p → s'.scenario q = s.scenario q) ∧
      countActions (s'.scenario p) = countActions (s.scenario p) ∧
      (JoinedOk (s.scenario p) → JoinedOk (s'.scenario p)) ∧
      (NoJoined (s.scenario p) → NoJoined (s'.scenario p)) := by
  obtain ⟨seq, rs', heq, inj, hperm, hbg⟩ := queue_shape s ev allow disallow rs p hp
  have hblock : NoJoined (seq.map Entry.event) := noJoined_queue_block hperm hbg hallow hev
  refine ⟨_, rs', heq, by simp [hp], by simp, by simp, by simp, by simp, by simp, by simp,
    by simp, by simp, ?_, ?_, ?_, ?_⟩
  · intro q hq
    exact setScenario_scenario_ne s _ hq
  · rw [setScenario_scenario_same, countActions_append, countActions_events]
    omega
  · intro h
    rw [setScenario_scenario_same]
    exact joinedOk_append h hblock
  · intro h
    rw [setScenario_scenario_same]
    exact noJoined_append h hblock

/-- Shape of the `consume` epilogue of `_exec`: only the pool can change
(by removing the executed action); absent membership raises `KeyError`. -/
theorem consume_action_spec (s : Sim) (a : Action) (c : Bool) (rs : RandState) :
    ∃ (err : Option SimError) (s' : Sim),
      s.consume_action a c rs = ⟨err, s', rs⟩ ∧
      err ≠ some SimError.indexError ∧
      (∀ q, s'.scenario q = s.scenario q) ∧
      s'.phase = s.phase ∧
      s'.max_operation_length = s.max_operation_length ∧
      s'.relations = s.relations ∧ s'.storage_mounts = s.storage_mounts ∧
      s'.containers = s.containers ∧ s'.is_leader = s.is_leader ∧ s'.scale = s.scale ∧
      s'.closed_log = s.closed_log ∧
      (∀ x ∈ s.possible_actions, x ≠ a → x ∈ s'.possible_actions) ∧
      (c = false → s' = s ∧ err = none) := by
  unfold Sim.consume_action
  cases c with
  | false =>
    exact ⟨none, s, by simp, by simp, fun _ => rfl, rfl, rfl, rfl, rfl, rfl, rfl, rfl, rfl,
      fun x hx _ => hx, fun _ => ⟨rfl, rfl⟩⟩
  | true =>
    by_cases ha : a ∈ s.possible_actions
    · refine ⟨none, { s with possible_actions := s.possible_actions.erase a }, by simp [ha],
        by simp, fun q => by simp, rfl, rfl, rfl, rfl, rfl, rfl, rfl, rfl, ?_, by simp⟩
      intro x hx hxa
      exact (List.mem_erase_of_ne hxa).mpr hx
    · exact ⟨some SimError.keyError, s, by simp [ha], by simp, fun _ => rfl, rfl, rfl, rfl,
        rfl, rfl, rfl, rfl, rfl, fun x hx _ => hx, by simp⟩

theorem pool_add_mem {l : List Action} {x : Action} (h : x ∈ l) (a : Action) :
    x ∈ pool_add l a := by
  unfold pool_add
  by_cases ha : a ∈ l
  · rwa [if_pos ha]
  · rw [if_neg ha]
    exact List.mem_append_left _ h

/-- Appending the `joined`/`changed` pair of `scale+` (or of the `joined`
branch): the two injection-disabled `_queue` calls compose to a single
two-element append. -/
theorem queue_pair_eq (s : Sim) (r : Relation) (rs : RandState) {p : Phase}
    (hp : s.phase = some p) :
    (s.queue r.joined [] [] rs).andThen (fun s₁ rs₁ => s₁.queue r.changed [] [] rs₁) =
      ⟨none, s.setScenario p
        (s.scenario p ++ [Entry.event r.joined, Entry.event r.changed]), rs⟩ := by
  rw [queue_nil_eq s r.joined [] rs p hp, andThen_none,
      queue_nil_eq _ r.changed [] rs p (by simp [hp]),
      setScenario_setScenario, setScenario_scenario_same, List.append_assoc]
  rfl

/-- Shape of the `scale+` relation loop: never raises; appends only
adjacent `joined, changed` pairs to the current phase's trace; the pool only
grows. -/
theorem scale_up_loop_spec {p : Phase} :
    ∀ (l : List Relation) (s : Sim) (rs : RandState), s.phase = some p →
    ∃ (s' : Sim) (rs' : RandState), scale_up_loop l s rs = ⟨none, s', rs'⟩ ∧
      s'.phase = some p ∧ s'.max_operation_length = s.max_operation_length ∧
      (∀ x ∈ s.possible_actions, x ∈ s'.possible_actions) ∧
      (∀ q, q ≠ p → s'.scenario q = s.scenario q) ∧
      countActions (s'.scenario p) = countActions (s.scenario p) ∧
      (JoinedOk (s.scenario p) → JoinedOk (s'.scenario p)) := by
  intro l
  induction l with
  | nil =>
    intro s rs hp
    exact ⟨s, rs, rfl, hp, rfl, fun x hx => hx, fun _ _ => rfl, rfl, fun h => h⟩
  | cons r rest ih =>
    intro s rs hp
    by_cases hj : r.is_joined
    · set s₁ : Sim :=
        ({ s with scale := s.scale + 1
                  possible_actions := pool_add s.possible_actions Action.scale_down }) with hs₁
      have hp₁ : s₁.phase = some p := hp
      set s₃ : Sim := s₁.setScenario p
        (s₁.scenario p ++ [Entry.event r.joined, Entry.event r.changed]) with hs₃
      obtain ⟨s', rs', hrec, hph, hmax, hpool, hoth, hcount, hjoin⟩ :=
        ih s₃ rs (by rw [hs₃, setScenario_phase]; exact hp₁)
      refine ⟨s', rs', ?_, hph, ?_, ?_, ?_, ?_, ?_⟩
      · simp only [scale_up_loop, if_pos hj]
        rw [show (s₁.queue r.joined [] [] rs).andThen
              (fun s₂ rs₂ => (s₂.queue r.changed [] [] rs₂).andThen
                (fun s₃ rs₃ => scale_up_loop rest s₃ rs₃)) =
            ((s₁.queue r.joined [] [] rs).andThen
              (fun s₂ rs₂ => s₂.queue r.changed [] [] rs₂)).andThen
                (fun s₃ rs₃ => scale_up_loop rest s₃ rs₃) from ?_]
        · rw [queue_pair_eq s₁ r rs hp₁, andThen_none]
          exact hrec
        · rw [queue_nil_eq s₁ r.joined [] rs p hp₁, andThen_none, andThen_none]
      · rw [hmax]; simp [hs₃, hs₁]
      · intro x hx
        refine hpool x ?_
        simp only [hs₃, setScenario_pool, hs₁]
        exact pool_add_mem hx Action.scale_down
      · intro q hq
        rw [hoth q hq, hs₃, setScenario_scenario_ne _ _ hq]
        simp [hs₁]
      · rw [hcount, hs₃, setScenario_scenario_same]
        have : [Entry.event r.joined, Entry.event r.changed] =
            List.map Entry.event [r.joined, r.changed] := rfl
        rw [this, countActions_append, countActions_events]
        simp [hs₁]
      · intro hJ
        refine hjoin ?_
        rw [hs₃, setScenario_scenario_same]
        have hJ₁ : JoinedOk (s₁.scenario p) := by simpa [hs₁] using hJ
        exact joinedOk_append_pair hJ₁ r
    · obtain ⟨s', rs', hrec, hph, hmax, hpool, hoth, hcount, hjoin⟩ := ih s rs hp
      refine ⟨s', rs', ?_, hph, hmax, hpool, hoth, hcount, hjoin⟩
      simp only [scale_up_loop, if_neg hj]
      exact hrec

/-- Shape of the `scale-` relation loop: never raises; appends only safe
event blocks (`departed` plus background) to the current phase's trace; the
pool and the rest of the state are untouched. -/
theorem scale_down_loop_spec {p : Phase} :
    ∀ (l : List Relation) (c : Bool) (s : Sim) (rs : RandState), s.phase = some p →
    ∃ (s' : Sim) (rs' : RandState) (c' : Bool),
      scale_down_loop l c s rs = (⟨none, s', rs'⟩, c') ∧
      s'.phase = some p ∧ s'.max_operation_length = s.max_operation_length ∧
      s'.possible_actions = s.possible_actions ∧
      (∀ q, q ≠ p → s'.scenario q = s.scenario q) ∧
      countActions (s'.scenario p) = countActions (s.scenario p) ∧
      (JoinedOk (s.scenario p) → JoinedOk (s'.scenario p)) := by
  intro l
  induction l with
  | nil =>
    intro c s rs hp
    exact ⟨s, rs, c, rfl, hp, rfl, rfl, fun _ _ => rfl, rfl, fun h => h⟩
  | cons r rest ih =>
    intro c s rs hp
    by_cases hj : r.is_joined
    · obtain ⟨s₁, rs₁, hq, hph₁, hpool₁, hmax₁, hrel₁, hsto₁, hcon₁, hsc₁, hld₁, hcl₁,
        hoth₁, hcount₁, hjoin₁, _⟩ :=
        queue_preserves s hp r.departed default_allow [] rs default_allow_ok (safe_departed r)
      obtain ⟨s', rs', c', hrec, hph, hmax, hpool, hoth, hcount, hjoin⟩ :=
        ih (if s.scale = 1 then true else c) s₁ rs₁ hph₁
      refine ⟨s', rs', c', ?_, hph, by rw [hmax, hmax₁], by rw [hpool, hpool₁], ?_, ?_, ?_⟩
      · simp only [scale_down_loop, if_pos hj]
        rw [hq]
        exact hrec
      · intro q hq'
        rw [hoth q hq', hoth₁ q hq']
      · rw [hcount, hcount₁]
      · intro hJ
        exact hjoin (hjoin₁ hJ)
    · obtain ⟨s', rs', c', hrec, hph, hmax, hpool, hoth, hcount, hjoin⟩ := ih c s rs hp
      refine ⟨s', rs', c', ?_, hph, hmax, hpool, hoth, hcount, hjoin⟩
      simp only [scale_down_loop, if_neg hj]
      exact hrec

@[simp] theorem set_joined_scenario (s : Sim) (r : Relation) (b : Bool) (p : Phase) :
    (s.set_joined r b).scenario p = s.scenario p := by simp [Sim.set_joined]

@[simp] theorem set_joined_phase (s : Sim) (r : Relation) (b : Bool) :
    (s.set_joined r b).phase = s.phase := rfl

@[simp] theorem set_joined_pool (s : Sim) (r : Relation) (b : Bool) :
    (s.set_joined r b).possible_actions = s.possible_actions := rfl

@[simp] theorem set_joined_max (s : Sim) (r : Relation) (b : Bool) :
    (s.set_joined r b).max_operation_length = s.max_operation_length := rfl

@[simp] theorem add_relation_scenario (s : Sim) (r : Relation) (p : Phase) :
    (s.add_relation r).scenario p = s.scenario p := by simp [Sim.add_relation]

@[simp] theorem add_relation_phase (s : Sim) (r : Relation) :
    (s.add_relation r).phase = s.phase := rfl

@[simp] theorem add_relation_pool (s : Sim) (r : Relation) :
    (s.add_relation r).possible_actions = s.possible_actions := rfl

@[simp] theorem add_relation_max (s : Sim) (r : Relation) :
    (s.add_relation r).max_operation_length = s.max_operation_length := rfl

@[simp] theorem remove_relation_scenario (s : Sim) (r : Relation) (p : Phase) :
    (s.remove_relation r).scenario p = s.scenario p := by simp [Sim.remove_relation]

@[simp] theorem remove_relation_phase (s : Sim) (r : Relation) :
    (s.remove_relation r).phase = s.phase := rfl

@[simp] theorem remove_relation_pool (s : Sim) (r : Relation) :
    (s.remove_relation r).possible_actions = s.possible_actions := rfl

@[simp] theorem remove_relation_max (s : Sim) (r : Relation) :
    (s.remove_relation r).max_operation_length = s.max_operation_length := rfl

@[simp] theorem attach_storage_scenario (s : Sim) (m : StorageMount) (p : Phase) :
    (s.attach_storage m).scenario p = s.scenario p := by simp [Sim.attach_storage]

@[simp] theorem attach_storage_phase (s : Sim) (m : StorageMount) :
    (s.attach_storage m).phase = s.phase := rfl

@[simp] theorem attach_storage_pool (s : Sim) (m : StorageMount) :
    (s.attach_storage m).possible_actions = s.possible_actions := rfl

@[simp] theorem attach_storage_max (s : Sim) (m : StorageMount) :
    (s.attach_storage m).max_operation_length = s.max_operation_length := rfl

@[simp] theorem detach_storage_scenario (s : Sim) (m : StorageMount) (p : Phase) :
    (s.detach_storage m).scenario p = s.scenario p := by simp [Sim.detach_storage]

@[simp] theorem detach_storage_phase (s : Sim) (m : StorageMount) :
    (s.detach_storage m).phase = s.phase := rfl

@[simp] theorem detach_storage_pool (s : Sim) (m : StorageMount) :
    (s.detach_storage m).possible_actions = s.possible_actions := rfl

@[simp] theorem detach_storage_max (s : Sim) (m : StorageMount) :
    (s.detach_storage m).max_operation_length = s.max_operation_length := rfl

theorem countActions_single_event (e : Event) : countActions [Entry.event e] = 0 := rfl

/-! ## Specification of the `_exec` dispatch arms -/

/-- The relation arm of the dispatch: never an `IndexError`; subject-less
pool entries survive; on success, the current phase's trace gains only event
entries and `JoinedOk` is preserved; other traces are untouched. -/
theorem exec_relation_spec (s : Sim) (a : Action) (subj : Relation) (rs : RandState) {p : Phase}
    (hp : s.phase = some p) (ha : a.subject = Subject.rel subj) :
    (s.exec_relation a subj rs).sim.phase = some p ∧
    (s.exec_relation a subj rs).sim.max_operation_length = s.max_operation_length ∧
    (s.exec_relation a subj rs).err ≠ some SimError.indexError ∧
    (∀ x ∈ s.possible_actions, x.subject = Subject.nothing →
      x ∈ (s.exec_relation a subj rs).sim.possible_actions) ∧
    ((s.exec_relation a subj rs).err = none → ∀ q, q ≠ p →
      (s.exec_relation a subj rs).sim.scenario q = s.scenario q) ∧
    ((s.exec_relation a subj rs).err = none →
      countActions ((s.exec_relation a subj rs).sim.scenario p) =
        countActions (s.scenario p)) ∧
    ((s.exec_relation a subj rs).err = none → JoinedOk (s.scenario p) →
      JoinedOk ((s.exec_relation a subj rs).sim.scenario p)) := by
  have hxne : ∀ x : Action, x.subject = Subject.nothing → x ≠ a := by
    intro x hx heq
    rw [heq, ha] at hx
    cases hx
  unfold Sim.exec_relation
  by_cases h1 : a.name = "change"
  · rw [if_pos h1]
    obtain ⟨s₁, rs₁, hq, hph₁, hpool₁, hmax₁, _, _, _, _, _, _, hoth₁, hcount₁, hjoin₁, _⟩ :=
      queue_preserves s hp subj.changed default_allow [] rs default_allow_ok (safe_changed subj)
    rw [hq, andThen_none]
    obtain ⟨err, s₂, hc, hcne, hcsc, hcph, hcmax, _, _, _, _, _, _, hcmem, _⟩ :=
      consume_action_spec s₁ a false rs₁
    rw [hc]
    refine ⟨by rw [hcph]; exact hph₁, by rw [hcmax, hmax₁], hcne, ?_, ?_, ?_, ?_⟩
    · intro x hx hxs
      exact hcmem x (by rw [hpool₁]; exact hx) (hxne x hxs)
    · intro _ q hq'
      rw [hcsc q, hoth₁ q hq']
    · intro _
      rw [hcsc p, hcount₁]
    · intro _ hJ
      rw [hcsc p]
      exact hjoin₁ hJ
  · rw [if_neg h1]
    by_cases h2 : a.name = "create"
    · rw [if_pos h2]
      obtain ⟨s₁, rs₁, hq, hph₁, hpool₁, hmax₁, _, _, _, _, _, _, hoth₁, hcount₁, hjoin₁, _⟩ :=
        queue_preserves s hp subj.created default_allow [] rs default_allow_ok (safe_created subj)
      rw [hq, andThen_none]
      obtain ⟨err, s₂, hc, hcne, hcsc, hcph, hcmax, _, _, _, _, _, _, hcmem, _⟩ :=
        consume_action_spec (s₁.add_relation subj) a true rs₁
      rw [hc]
      refine ⟨by rw [hcph, add_relation_phase]; exact hph₁,
        by rw [hcmax, add_relation_max, hmax₁], hcne, ?_, ?_, ?_, ?_⟩
      · intro x hx hxs
        refine hcmem x ?_ (hxne x hxs)
        rw [add_relation_pool, hpool₁]
        exact hx
      · intro _ q hq'
        rw [hcsc q, add_relation_scenario, hoth₁ q hq']
      · intro _
        rw [hcsc p, add_relation_scenario, hcount₁]
      · intro _ hJ
        rw [hcsc p, add_relation_scenario]
        exact hjoin₁ hJ
    · rw [if_neg h2]
      by_cases h3 : a.name = "joined"
      · rw [if_pos h3]
        by_cases h4 : subj ∈ s.relations
        · rw [if_neg (by simpa using h4)]
          by_cases h5 : subj.is_joined
          · rw [if_pos h5]
            refine ⟨hp, rfl, by simp, fun x hx _ => hx, ?_, ?_, ?_⟩ <;> intro hcontra <;>
              simp at hcontra
          · rw [if_neg h5]
            rw [queue_nil_eq s subj.joined [] rs p hp, andThen_none,
                queue_nil_eq _ subj.changed [] rs p (by simp [hp]), andThen_none,
                setScenario_setScenario, setScenario_scenario_same]
            obtain ⟨err, s₂, hc, hcne, hcsc, hcph, hcmax, _, _, _, _, _, _, hcmem, _⟩ :=
              consume_action_spec ((s.setScenario p
                ((s.scenario p ++ [Entry.event subj.joined]) ++ [Entry.event subj.changed])).set_joined
                subj true) a true rs
            rw [hc]
            refine ⟨by rw [hcph, set_joined_phase, setScenario_phase]; exact hp,
              by rw [hcmax, set_joined_max, setScenario_max], hcne, ?_, ?_, ?_, ?_⟩
            · intro x hx hxs
              refine hcmem x ?_ (hxne x hxs)
              rw [set_joined_pool, setScenario_pool]
              exact hx
            · intro _ q hq'
              rw [hcsc q, set_joined_scenario, setScenario_scenario_ne _ _ hq']
            · intro _
              rw [hcsc p, set_joined_scenario, setScenario_scenario_same,
                countActions_append, countActions_append, countActions_single_event,
                countActions_single_event]
              omega
            · intro _ hJ
              rw [hcsc p, set_joined_scenario, setScenario_scenario_same, List.append_assoc]
              exact joinedOk_append_pair hJ subj
        · rw [if_pos (by simpa using h4)]
          refine ⟨hp, rfl, by simp, fun x hx _ => hx, ?_, ?_, ?_⟩ <;> intro hcontra <;>
            simp at hcontra
      · rw [if_neg h3]
        by_cases h6 : a.name = "break"
        · rw [if_pos h6]
          obtain ⟨s₁, rs₁, hq, hph₁, hpool₁, hmax₁, _, _, _, _, _, _, hoth₁, hcount₁, hjoin₁, _⟩ :=
            queue_preserves (s.remove_relation subj) (by simpa using hp) subj.broken
              default_allow [] rs default_allow_ok (safe_broken subj)
          rw [hq, andThen_none]
          obtain ⟨err, s₂, hc, hcne, hcsc, hcph, hcmax, _, _, _, _, _, _, hcmem, _⟩ :=
            consume_action_spec s₁ a true rs₁
          rw [hc]
          refine ⟨by rw [hcph]; exact hph₁, by rw [hcmax, hmax₁, remove_relation_max], hcne,
            ?_, ?_, ?_, ?_⟩
          · intro x hx hxs
            refine hcmem x ?_ (hxne x hxs)
            rw [hpool₁, remove_relation_pool]
            exact hx
          · intro _ q hq'
            rw [hcsc q, hoth₁ q hq', remove_relation_scenario]
          · intro _
            rw [hcsc p, hcount₁, remove_relation_scenario]
          · intro _ hJ
            rw [hcsc p]
            refine hjoin₁ ?_
            rw [remove_relation_scenario]
            exact hJ
        · rw [if_neg h6]
          by_cases h7 : a.name = "depart"
          · rw [if_pos h7]
            by_cases h8 : subj ∈ s.relations
            · rw [if_neg (by simpa using h8)]
              by_cases h9 : subj.is_joined
              · rw [if_neg (by simpa using h9)]
                obtain ⟨err, s₂, hc, hcne, hcsc, hcph, hcmax, _, _, _, _, _, _, hcmem, _⟩ :=
                  consume_action_spec (s.set_joined subj false) a true rs
                rw [hc]
                refine ⟨by rw [hcph, set_joined_phase]; exact hp,
                  by rw [hcmax, set_joined_max], hcne, ?_, ?_, ?_, ?_⟩
                · intro x hx hxs
                  refine hcmem x ?_ (hxne x hxs)
                  rw [set_joined_pool]
                  exact hx
                · intro _ q _
                  rw [hcsc q, set_joined_scenario]
                · intro _
                  rw [hcsc p, set_joined_scenario]
                · intro _ hJ
                  rw [hcsc p, set_joined_scenario]
                  exact hJ
              · rw [if_pos (by simpa using h9)]
                refine ⟨hp, rfl, by simp, fun x hx _ => hx, ?_, ?_, ?_⟩ <;> intro hcontra <;>
                  simp at hcontra
            · rw [if_pos (by simpa using h8)]
              refine ⟨hp, rfl, by simp, fun x hx _ => hx, ?_, ?_, ?_⟩ <;> intro hcontra <;>
                simp at hcontra
          · rw [if_neg h7]
            refine ⟨hp, rfl, by simp, fun x hx _ => hx, ?_, ?_, ?_⟩ <;> intro hcontra <;>
              simp at hcontra

/-- The storage arm of the dispatch: same shape as the relation arm. -/
theorem exec_storage_spec (s : Sim) (a : Action) (subj : StorageMount) (rs : RandState)
    {p : Phase} (hp : s.phase = some p) (ha : a.subject = Subject.storage subj) :
    (s.exec_storage a subj rs).sim.phase = some p ∧
    (s.exec_storage a subj rs).sim.max_operation_length = s.max_operation_length ∧
    (s.exec_storage a subj rs).err ≠ some SimError.indexError ∧
    (∀ x ∈ s.possible_actions, x.subject = Subject.nothing →
      x ∈ (s.exec_storage a subj rs).sim.possible_actions) ∧
    ((s.exec_storage a subj rs).err = none → ∀ q, q ≠ p →
      (s.exec_storage a subj rs).sim.scenario q = s.scenario q) ∧
    ((s.exec_storage a subj rs).err = none →
      countActions ((s.exec_storage a subj rs).sim.scenario p) =
        countActions (s.scenario p)) ∧
    ((s.exec_storage a subj rs).err = none → JoinedOk (s.scenario p) →
      JoinedOk ((s.exec_storage a subj rs).sim.scenario p)) := by
  have hxne : ∀ x : Action, x.subject = Subject.nothing → x ≠ a := by
    intro x hx heq
    rw [heq, ha] at hx
    cases hx
  unfold Sim.exec_storage
  by_cases h1 : a.name = "attach"
  · rw [if_pos h1]
    by_cases h2 : subj ∈ s.storage_mounts
    · rw [if_pos h2]
      refine ⟨hp, rfl, by simp, fun x hx _ => hx, ?_, ?_, ?_⟩ <;> intro hcontra <;>
        simp at hcontra
    · rw [if_neg h2]
      obtain ⟨s₁, rs₁, hq, hph₁, hpool₁, hmax₁, _, _, _, _, _, _, hoth₁, hcount₁, hjoin₁, _⟩ :=
        queue_preserves (s.attach_storage subj) (by simpa using hp) subj.attached
          default_allow [] rs default_allow_ok (safe_attached subj)
      rw [hq, andThen_none]
      obtain ⟨err, s₂, hc, hcne, hcsc, hcph, hcmax, _, _, _, _, _, _, hcmem, _⟩ :=
        consume_action_spec s₁ a true rs₁
      rw [hc]
      refine ⟨by rw [hcph]; exact hph₁, by rw [hcmax, hmax₁, attach_storage_max], hcne,
        ?_, ?_, ?_, ?_⟩
      · intro x hx hxs
        refine hcmem x ?_ (hxne x hxs)
        rw [hpool₁, attach_storage_pool]
        exact hx
      · intro _ q hq'
        rw [hcsc q, hoth₁ q hq', attach_storage_scenario]
      · intro _
        rw [hcsc p, hcount₁, attach_storage_scenario]
      · intro _ hJ
        rw [hcsc p]
        refine hjoin₁ ?_
        rw [attach_storage_scenario]
        exact hJ
  · rw [if_neg h1]
    by_cases h2 : a.name = "detach"
    · rw [if_pos h2]
      by_cases h3 : subj ∈ s.storage_mounts
      · rw [if_neg (by simpa using h3)]
        obtain ⟨s₁, rs₁, hq, hph₁, hpool₁, hmax₁, _, _, _, _, _, _, hoth₁, hcount₁, hjoin₁, _⟩ :=
          queue_preserves (s.detach_storage subj) (by simpa using hp) subj.detached
            default_allow [] rs default_allow_ok (safe_detached subj)
        rw [hq, andThen_none]
        obtain ⟨err, s₂, hc, hcne, hcsc, hcph, hcmax, _, _, _, _, _, _, hcmem, _⟩ :=
          consume_action_spec s₁ a true rs₁
        rw [hc]
        refine ⟨by rw [hcph]; exact hph₁, by rw [hcmax, hmax₁, detach_storage_max], hcne,
          ?_, ?_, ?_, ?_⟩
        · intro x hx hxs
          refine hcmem x ?_ (hxne x hxs)
          rw [hpool₁, detach_storage_pool]
          exact hx
        · intro _ q hq'
          rw [hcsc q, hoth₁ q hq', detach_storage_scenario]
        · intro _
          rw [hcsc p, hcount₁, detach_storage_scenario]
        · intro _ hJ
          rw [hcsc p]
          refine hjoin₁ ?_
          rw [detach_storage_scenario]
          exact hJ
      · rw [if_pos (by simpa using h3)]
        refine ⟨hp, rfl, by simp, fun x hx _ => hx, ?_, ?_, ?_⟩ <;> intro hcontra <;>
          simp at hcontra
    · rw [if_neg h2]
      refine ⟨hp, rfl, by simp, fun x hx _ => hx, ?_, ?_, ?_⟩ <;> intro hcontra <;>
        simp at hcontra

/-- The subject-less arm of the dispatch: never an `IndexError`; subject-less
pool entries other than `scale-` survive; trace effects as in the other
arms. -/
theorem exec_generic_spec (s : Sim) (a : Action) (rs : RandState) {p : Phase}
    (hp : s.phase = some p) :
    (s.exec_generic a rs).sim.phase = some p ∧
    (s.exec_generic a rs).sim.max_operation_length = s.max_operation_length ∧
    (s.exec_generic a rs).err ≠ some SimError.indexError ∧
    (∀ x ∈ s.possible_actions, x.subject = Subject.nothing → x.name ≠ "scale-" →
      x ∈ (s.exec_generic a rs).sim.possible_actions) ∧
    ((s.exec_generic a rs).err = none → ∀ q, q ≠ p →
      (s.exec_generic a rs).sim.scenario q = s.scenario q) ∧
    ((s.exec_generic a rs).err = none →
      countActions ((s.exec_generic a rs).sim.scenario p) = countActions (s.scenario p)) ∧
    ((s.exec_generic a rs).err = none → JoinedOk (s.scenario p) →
      JoinedOk ((s.exec_generic a rs).sim.scenario p)) := by
  unfold Sim.exec_generic
  by_cases h1 : a.name = "config-change"
  · rw [if_pos h1]
    obtain ⟨s₁, rs₁, hq, hph₁, hpool₁, hmax₁, _, _, _, _, _, _, hoth₁, hcount₁, hjoin₁, _⟩ :=
      queue_preserves s hp config_changed default_allow [] rs default_allow_ok
        safe_config_changed
    rw [hq, andThen_none]
    obtain ⟨err, s₂, hc, hcne, hcsc, hcph, hcmax, _, _, _, _, _, _, hcmem, hcfalse⟩ :=
      consume_action_spec s₁ a false rs₁
    rw [hc]
    obtain ⟨rfl, rfl⟩ := hcfalse rfl
    refine ⟨hph₁, by rw [hmax₁], by simp, ?_, ?_, ?_, ?_⟩
    · intro x hx _ _
      rw [hpool₁]
      exact hx
    · intro _ q hq'
      exact hoth₁ q hq'
    · intro _
      exact hcount₁
    · intro _ hJ
      exact hjoin₁ hJ
  · rw [if_neg h1]
    by_cases h2 : a.name = "scale+"
    · rw [if_pos h2]
      obtain ⟨s₁, rs₁, hloop, hph₁, hmax₁, hpool₁, hoth₁, hcount₁, hjoin₁⟩ :=
        scale_up_loop_spec s.relations s rs hp
      rw [hloop, andThen_none]
      obtain ⟨err, s₂, hc, hcne, hcsc, hcph, hcmax, _, _, _, _, _, _, hcmem, hcfalse⟩ :=
        consume_action_spec s₁ a false rs₁
      rw [hc]
      obtain ⟨rfl, rfl⟩ := hcfalse rfl
      refine ⟨hph₁, by rw [hmax₁], by simp, ?_, ?_, ?_, ?_⟩
      · intro x hx _ _
        exact hpool₁ x hx
      · intro _ q hq'
        exact hoth₁ q hq'
      · intro _
        exact hcount₁
      · intro _ hJ
        exact hjoin₁ hJ
    · rw [if_neg h2]
      by_cases h3 : a.name = "scale-"
      · rw [if_pos h3]
        obtain ⟨s₁, rs₁, c', hloop, hph₁, hmax₁, hpool₁, hoth₁, hcount₁, hjoin₁⟩ :=
          scale_down_loop_spec s.relations false s rs hp
        rw [hloop]
        dsimp only
        obtain ⟨err, s₂, hc, hcne, hcsc, hcph, hcmax, _, _, _, _, _, _, hcmem, _⟩ :=
          consume_action_spec s₁ a c' rs₁
        rw [hc]
        refine ⟨by rw [hcph]; exact hph₁, by rw [hcmax, hmax₁], hcne, ?_, ?_, ?_, ?_⟩
        · intro x hx hxs hxn
          refine hcmem x (by rw [hpool₁]; exact hx) ?_
          intro heq
          rw [heq, h3] at hxn
          exact hxn rfl
        · intro _ q hq'
          rw [hcsc q, hoth₁ q hq']
        · intro _
          rw [hcsc p, hcount₁]
        · intro _ hJ
          rw [hcsc p]
          exact hjoin₁ hJ
      · rw [if_neg h3]
        by_cases h4 : a.name = "leadership_change"
        · rw [if_pos h4]
          by_cases hld : s.is_leader = true
          · rw [if_pos hld]
            obtain ⟨s₁, rs₁, hq, hph₁, hpool₁, hmax₁, _, _, _, _, _, _, hoth₁, hcount₁,
              hjoin₁, _⟩ :=
              queue_preserves ({ s with is_leader := false }) hp leader_settings_changed
                default_allow [] rs default_allow_ok safe_leader_settings_changed
            rw [hq, andThen_none]
            obtain ⟨err, s₂, hc, hcne, hcsc, hcph, hcmax, _, _, _, _, _, _, hcmem, hcfalse⟩ :=
              consume_action_spec s₁ a false rs₁
            rw [hc]
            obtain ⟨rfl, rfl⟩ := hcfalse rfl
            refine ⟨hph₁, by rw [hmax₁], by simp, ?_, ?_, ?_, ?_⟩
            · intro x hx _ _
              rw [hpool₁]
              exact hx
            · intro _ q hq'
              rw [hoth₁ q hq', scenario_update_leader]
            · intro _
              rw [hcount₁, scenario_update_leader]
            · intro _ hJ
              refine hjoin₁ ?_
              rw [scenario_update_leader]
              exact hJ
          · rw [if_neg hld]
            obtain ⟨s₁, rs₁, hq, hph₁, hpool₁, hmax₁, _, _, _, _, _, _, hoth₁, hcount₁,
              hjoin₁, _⟩ :=
              queue_preserves ({ s with is_leader := true }) hp leader_elected
                default_allow [] rs default_allow_ok safe_leader_elected
            rw [hq, andThen_none]
            obtain ⟨err, s₂, hc, hcne, hcsc, hcph, hcmax, _, _, _, _, _, _, hcmem, hcfalse⟩ :=
              consume_action_spec s₁ a false rs₁
            rw [hc]
            obtain ⟨rfl, rfl⟩ := hcfalse rfl
            refine ⟨hph₁, by rw [hmax₁], by simp, ?_, ?_, ?_, ?_⟩
            · intro x hx _ _
              rw [hpool₁]
              exact hx
            · intro _ q hq'
              rw [hoth₁ q hq', scenario_update_leader]
            · intro _
              rw [hcount₁, scenario_update_leader]
            · intro _ hJ
              refine hjoin₁ ?_
              rw [scenario_update_leader]
              exact hJ
        · rw [if_neg h4]
          obtain ⟨err, s₂, hc, hcne, hcsc, hcph, hcmax, _, _, _, _, _, _, hcmem, hcfalse⟩ :=
            consume_action_spec s a false rs
          rw [hc]
          obtain ⟨rfl, rfl⟩ := hcfalse rfl
          exact ⟨hp, rfl, by simp, fun x hx _ _ => hx, fun _ q _ => rfl, fun _ => rfl,
            fun _ hJ => hJ⟩

/-- The combined `_exec` specification: with the phase set, executing any
action never raises `IndexError`, preserves the phase and
`max_operation_length`, keeps every subject-less pool action other than
`scale-`, and — on success — appends exactly one `Action` entry (plus event
entries) to the current phase's trace, preserving `JoinedOk` there and
leaving the other phases' traces untouched. -/
theorem exec_spec (s₀ : Sim) (a : Action) (rs : RandState) {p : Phase}
    (hp : s₀.phase = some p) :
    (s₀.exec a rs).sim.phase = some p ∧
    (s₀.exec a rs).sim.max_operation_length = s₀.max_operation_length ∧
    (s₀.exec a rs).err ≠ some SimError.indexError ∧
    (∀ x ∈ s₀.possible_actions, x.subject = Subject.nothing → x.name ≠ "scale-" →
      x ∈ (s₀.exec a rs).sim.possible_actions) ∧
    ((s₀.exec a rs).err = none → ∀ q, q ≠ p →
      (s₀.exec a rs).sim.scenario q = s₀.scenario q) ∧
    ((s₀.exec a rs).err = none →
      countActions ((s₀.exec a rs).sim.scenario p) = countActions (s₀.scenario p) + 1) ∧
    ((s₀.exec a rs).err = none → JoinedOk (s₀.scenario p) →
      JoinedOk ((s₀.exec a rs).sim.scenario p)) := by
  have hblock : NoJoined [Entry.action a] := by
    intro x hx
    rw [List.mem_singleton.mp hx]
    exact not_entryJoined_action a
  have hexec : s₀.exec a rs =
      match a.subject with
      | Subject.rel subj =>
        (s₀.setScenario p (s₀.scenario p ++ [Entry.action a])).exec_relation a subj rs
      | Subject.storage subj =>
        (s₀.setScenario p (s₀.scenario p ++ [Entry.action a])).exec_storage a subj rs
      | Subject.nothing =>
        (s₀.setScenario p (s₀.scenario p ++ [Entry.action a])).exec_generic a rs := by
    unfold Sim.exec
    rw [hp]
  rw [hexec]
  set s := s₀.setScenario p (s₀.scenario p ++ [Entry.action a]) with hs
  have hsp : s.phase = some p := by rw [hs, setScenario_phase]; exact hp
  have hscount : countActions (s.scenario p) = countActions (s₀.scenario p) + 1 := by
    rw [hs, setScenario_scenario_same, countActions_append]
    rfl
  have hsJ : JoinedOk (s₀.scenario p) → JoinedOk (s.scenario p) := by
    intro hJ
    rw [hs, setScenario_scenario_same]
    exact joinedOk_append hJ hblock
  have hsoth : ∀ q, q ≠ p → s.scenario q = s₀.scenario q := by
    intro q hq
    rw [hs]
    exact setScenario_scenario_ne _ _ hq
  have hspool : s.possible_actions = s₀.possible_actions := by rw [hs, setScenario_pool]
  have hsmax : s.max_operation_length = s₀.max_operation_length := by
    rw [hs, setScenario_max]
  cases hsub : a.subject with
  | rel subj =>
    obtain ⟨h1, h2, h3, h4, h5, h6, h7⟩ := exec_relation_spec s a subj rs hsp hsub
    refine ⟨h1, by rw [h2, hsmax], h3, ?_, ?_, ?_, ?_⟩
    · intro x hx hxs _
      exact h4 x (by rw [hspool]; exact hx) hxs
    · intro he q hq
      rw [h5 he q hq, hsoth q hq]
    · intro he
      rw [h6 he, hscount]
    · intro he hJ
      exact h7 he (hsJ hJ)
  | storage subj =>
    obtain ⟨h1, h2, h3, h4, h5, h6, h7⟩ := exec_storage_spec s a subj rs hsp hsub
    refine ⟨h1, by rw [h2, hsmax], h3, ?_, ?_, ?_, ?_⟩
    · intro x hx hxs _
      exact h4 x (by rw [hspool]; exact hx) hxs
    · intro he q hq
      rw [h5 he q hq, hsoth q hq]
    · intro he
      rw [h6 he, hscount]
    · intro he hJ
      exact h7 he (hsJ hJ)
  | nothing =>
    obtain ⟨h1, h2, h3, h4, h5, h6, h7⟩ := exec_generic_spec s a rs hsp
    refine ⟨h1, by rw [h2, hsmax], h3, ?_, ?_, ?_, ?_⟩
    · intro x hx hxs hxn
      exact h4 x (by rw [hspool]; exact hx) hxs hxn
    · intro he q hq
      rw [h5 he q hq, hsoth q hq]
    · intro he
      rw [h6 he, hscount]
    · intro he hJ
      exact h7 he (hsJ hJ)

/-! ## Pool construction and `TrioIn` -/

theorem pool_add_self (l : List Action) (a : Action) : a ∈ pool_add l a := by
  unfold pool_add
  by_cases ha : a ∈ l
  · rwa [if_pos ha]
  · rw [if_neg ha]
    exact List.mem_append_right _ (List.mem_singleton.mpr rfl)

theorem mem_pool_foldl :
    ∀ (l acc : List Action) (a : Action), a ∈ acc ∨ a ∈ l → a ∈ l.foldl pool_add acc := by
  intro l
  induction l with
  | nil =>
    intro acc a h
    simpa using h.resolve_right (by simp)
  | cons b t ih =>
    intro acc a h
    rcases h with h | h
    · exact ih (pool_add acc b) a (Or.inl (pool_add_mem h b))
    · rcases List.mem_cons.mp h with rfl | h'
      · exact ih (pool_add acc a) a (Or.inl (pool_add_self acc a))
      · exact ih (pool_add acc b) a (Or.inr h')

/-- `_exec` preserves the availability of the three generic actions. -/
theorem trio_exec (s : Sim) (a : Action) (rs : RandState) {p : Phase}
    (hp : s.phase = some p) (ht : TrioIn s) : TrioIn (s.exec a rs).sim := by
  obtain ⟨_, _, _, h4, _, _, _⟩ := exec_spec s a rs hp
  obtain ⟨h1, h2, src, h3⟩ := ht
  exact ⟨h4 _ h1 rfl (by decide), h4 _ h2 rfl (by decide), src,
    h4 _ h3 rfl (by intro hh; simp at hh)⟩

/-- A successful `_queue` leaves the current phase's trace nonempty. -/
theorem queue_result_nonempty (s : Sim) (ev : Event) (allow disallow : List String)
    (rs : RandState) {p : Phase} (hp : s.phase = some p) :
    (s.queue ev allow disallow rs).sim.scenario p ≠ [] := by
  obtain ⟨seq, rs', heq, inj, hperm, _⟩ := queue_shape s ev allow disallow rs p hp
  rw [heq]
  show (s.setScenario p (s.scenario p ++ seq.map Entry.event)).scenario p ≠ []
  rw [setScenario_scenario_same]
  intro hnil
  rcases List.append_eq_nil.mp hnil with ⟨_, hmap⟩
  rw [List.map_eq_nil] at hmap
  rw [hmap] at hperm
  exact (List.cons_ne_nil _ _) hperm.symm.eq_nil

/-- What `init` guarantees about the constructed simulator. -/
theorem init_spec (cfg : Config) (rs : RandState) {s₀ : Sim} {rs₀ : RandState}
    (h : init cfg rs = Except.ok (s₀, rs₀)) :
    s₀.phase = Option.none ∧ (∀ p, s₀.scenario p = []) ∧ TrioIn s₀ ∧
    s₀.max_operation_length = cfg.max_operation_length := by
  unfold init at h
  split_ifs at h with h1 h2 h3
  all_goals first
  | (injection h; done)
  | (injection h with h'
     injection h' with hsim hrand
     subst hsim
     refine ⟨rfl, by intro p; cases p <;> rfl, ?_, rfl⟩
     rcases hSR : Source.random (build_changes cfg.relations rs).2 with ⟨src, rsy⟩
     have hsrc : (Action.leadership_change (build_changes cfg.relations rs).2).1 =
         Action.mk Subject.nothing "leadership_change" src := by
       unfold Action.leadership_change
       rw [hSR]
     refine ⟨?_, ?_, src, ?_⟩ <;>
     first
     | (refine pool_add_mem (mem_pool_foldl _ [] _ (Or.inr ?_)) _
        simp
        done)
     | (refine mem_pool_foldl _ [] _ (Or.inr ?_)
        simp
        done)
     | (rw [← hsrc]
        first
        | (refine pool_add_mem (mem_pool_foldl _ [] _ (Or.inr ?_)) _
           simp
           done)
        | (refine mem_pool_foldl _ [] _ (Or.inr ?_)
           simp
           done)))

/-! ## Shapes of the phase bodies -/

/-- `queue_events` over safe events: never raises, preserves everything but
the current phase's trace, adds no action entries, no joined events. -/
theorem queue_events_preserves {p : Phase} :
    ∀ (evs : List Event) (s : Sim) (rs : RandState), s.phase = some p →
    (∀ e ∈ evs, SafeEvent e) →
    ∃ (s' : Sim) (rs' : RandState), queue_events evs s rs = ⟨none, s', rs'⟩ ∧
      s'.phase = some p ∧ s'.possible_actions = s.possible_actions ∧
      s'.max_operation_length = s.max_operation_length ∧ s'.relations = s.relations ∧
      s'.storage_mounts = s.storage_mounts ∧ s'.containers = s.containers ∧
      s'.scale = s.scale ∧ s'.is_leader = s.is_leader ∧ s'.closed_log = s.closed_log ∧
      (∀ q, q ≠ p → s'.scenario q = s.scenario q) ∧
      countActions (s'.scenario p) = countActions (s.scenario p) ∧
      (JoinedOk (s.scenario p) → JoinedOk (s'.scenario p)) ∧
      (NoJoined (s.scenario p) → NoJoined (s'.scenario p)) ∧
      (s.scenario p ≠ [] → s'.scenario p ≠ []) := by
  intro evs
  induction evs with
  | nil =>
    intro s rs hp _
    exact ⟨s, rs, rfl, hp, rfl, rfl, rfl, rfl, rfl, rfl, rfl, rfl, fun _ _ => rfl, rfl,
      fun h => h, fun h => h, fun h => h⟩
  | cons e rest ih =>
    intro s rs hp hsafe
    obtain ⟨s₁, rs₁, hq, hph₁, hpool₁, hmax₁, hrel₁, hsto₁, hcon₁, hsc₁, hld₁, hcl₁,
      hoth₁, hcount₁, hjoin₁, hnoj₁⟩ :=
      queue_preserves s hp e default_allow [] rs default_allow_ok
        (hsafe e (List.mem_cons_self e rest))
    have hne₁ : s₁.scenario p ≠ [] := by
      have := queue_result_nonempty s e default_allow [] rs hp
      rw [hq] at this
      exact this
    obtain ⟨s', rs', hrec, hph, hpool, hmax, hrel, hsto, hcon, hsc, hld, hcl, hoth,
      hcount, hjoin, hnoj, hne⟩ :=
      ih s₁ rs₁ hph₁ (fun e' he' => hsafe e' (List.mem_cons_of_mem e he'))
    refine ⟨s', rs', ?_, hph, by rw [hpool, hpool₁], by rw [hmax, hmax₁],
      by rw [hrel, hrel₁], by rw [hsto, hsto₁], by rw [hcon, hcon₁], by rw [hsc, hsc₁],
      by rw [hld, hld₁], by rw [hcl, hcl₁], ?_, by rw [hcount, hcount₁],
      fun hJ => hjoin (hjoin₁ hJ), fun hN => hnoj (hnoj₁ hN), fun _ => hne hne₁⟩
    · simp only [queue_events]
      rw [hq, andThen_none]
      exact hrec
    · intro q hq'
      rw [hoth q hq', hoth₁ q hq']

/-- The operation loop: preserves phase and `max_operation_length`; keeps
the three generic actions in the pool, hence the uniform draw never fails
(`IndexError` is impossible); on success each iteration contributes exactly
one `Action` entry to the operation trace; `JoinedOk` of the current trace is
preserved and other traces are untouched. -/
theorem run_operation_loop_spec {p : Phase} :
    ∀ (k : Nat) (s : Sim) (rs : RandState), s.phase = some p → TrioIn s →
    (run_operation_loop k s rs).err ≠ some SimError.indexError ∧
    TrioIn (run_operation_loop k s rs).sim ∧
    (run_operation_loop k s rs).sim.phase = some p ∧
    (run_operation_loop k s rs).sim.max_operation_length = s.max_operation_length ∧
    ((run_operation_loop k s rs).err = none → ∀ q, q ≠ p →
      (run_operation_loop k s rs).sim.scenario q = s.scenario q) ∧
    ((run_operation_loop k s rs).err = none →
      countActions ((run_operation_loop k s rs).sim.scenario p) =
        countActions (s.scenario p) + k) ∧
    ((run_operation_loop k s rs).err = none → JoinedOk (s.scenario p) →
      JoinedOk ((run_operation_loop k s rs).sim.scenario p)) := by
  intro k
  induction k with
  | zero =>
    intro s rs hp ht
    exact ⟨fun hc => Option.noConfusion hc, ht, hp, rfl, fun _ _ _ => rfl, fun _ => rfl,
      fun _ h => h⟩
  | succ k ih =>
    intro s rs hp ht
    have hne : s.possible_actions.length ≠ 0 := by
      intro hlen
      have hnil : s.possible_actions = [] := List.eq_nil_of_length_eq_zero hlen
      have hmem := ht.1
      rw [hnil] at hmem
      simp at hmem
    show _ ∧ _ ∧ _ ∧ _ ∧ _ ∧ _ ∧ _
    simp only [run_operation_loop, if_neg hne, RandState.draw]
    set a := s.possible_actions.getD (rs.src rs.pos % s.possible_actions.length)
      Action.change_config with hadef
    obtain ⟨e1, e2, e3, e4, e5, e6, e7⟩ := exec_spec s a ⟨rs.src, rs.pos + 1⟩ hp
    have ht' : TrioIn (s.exec a ⟨rs.src, rs.pos + 1⟩).sim :=
      trio_exec s a ⟨rs.src, rs.pos + 1⟩ hp ht
    rcases hres : s.exec a ⟨rs.src, rs.pos + 1⟩ with ⟨err, s', rs'⟩
    rw [hres] at e1 e2 e3 e4 e5 e6 e7 ht'
    cases err with
    | some e =>
      simp only [andThen_some]
      refine ⟨by simpa using e3, ht', e1, e2, ?_, ?_, ?_⟩ <;> intro hc <;> simp at hc
    | none =>
      simp only [andThen_none]
      obtain ⟨l1, l2, l3, l4, l5, l6, l7⟩ := ih s' rs' e1 ht'
      refine ⟨l1, l2, l3, by rw [l4]; simpa using e2, ?_, ?_, ?_⟩
      · intro hok q hq
        rw [l5 hok q hq]
        simpa using e5 rfl q hq
      · intro hok
        rw [l6 hok]
        have := e6 rfl
        simp only at this
        rw [this]
        omega
      · intro hok hJ
        exact l7 hok (e7 rfl hJ)

/-- `_run_setup` (with the phase set to setup): never raises; leaves a
nonempty setup trace with no joined events and no action entries added;
everything else preserved. -/
theorem run_setup_spec (s : Sim) (rs : RandState) (hp : s.phase = some Phase.setup) :
    ∃ (s' : Sim) (rs' : RandState), s.run_setup rs = ⟨none, s', rs'⟩ ∧
      s'.phase = some Phase.setup ∧ s'.possible_actions = s.possible_actions ∧
      s'.max_operation_length = s.max_operation_length ∧ s'.relations = s.relations ∧
      s'.storage_mounts = s.storage_mounts ∧ s'.containers = s.containers ∧
      s'.scale = s.scale ∧ s'.closed_log = s.closed_log ∧
      (∀ q, q ≠ Phase.setup → s'.scenario q = s.scenario q) ∧
      countActions (s'.scenario Phase.setup) = countActions (s.scenario Phase.setup) ∧
      (NoJoined (s.scenario Phase.setup) → NoJoined (s'.scenario Phase.setup)) ∧
      s'.scenario Phase.setup ≠ [] := by
  unfold Sim.run_setup
  obtain ⟨s₁, rs₁, hq1, hph1, hpool1, hmax1, hrel1, hsto1, hcon1, hsc1, hld1, hcl1,
    hoth1, hcount1, hjoin1, hnoj1, hne1⟩ :=
    queue_events_preserves (s.storage_mounts.map StorageMount.attached) s rs hp
      (by intro e he; obtain ⟨m, _, rfl⟩ := List.mem_map.mp he; exact safe_attached m)
  rw [hq1, andThen_none]
  obtain ⟨s₂, rs₂, hq2, hph2, hpool2, hmax2, hrel2, hsto2, hcon2, hsc2, hld2, hcl2,
    hoth2, hcount2, hjoin2, hnoj2⟩ :=
    queue_preserves s₁ hph1 install default_allow [] rs₁ default_allow_ok safe_install
  rw [hq2, andThen_none]
  have hne2 : s₂.scenario Phase.setup ≠ [] := by
    have := queue_result_nonempty s₁ install default_allow [] rs₁ hph1
    rw [hq2] at this
    exact this
  obtain ⟨s₃, rs₃, hq3, hph3, hpool3, hmax3, hrel3, hsto3, hcon3, hsc3, hld3, hcl3,
    hoth3, hcount3, hjoin3, hnoj3, hne3⟩ :=
    queue_events_preserves (s₂.peer_relations.map Relation.created) s₂ rs₂ hph2
      (by intro e he; obtain ⟨r, _, rfl⟩ := List.mem_map.mp he; exact safe_created r)
  rw [hq3, andThen_none]
  have hlead : ∃ (s₄ : Sim) (rs₄ : RandState),
      (if s₃.is_leader = true then s₃.queue leader_elected default_allow [] rs₃
       else s₃.queue leader_settings_changed default_allow [] rs₃) = ⟨none, s₄, rs₄⟩ ∧
      s₄.phase = some Phase.setup ∧ s₄.possible_actions = s₃.possible_actions ∧
      s₄.max_operation_length = s₃.max_operation_length ∧ s₄.relations = s₃.relations ∧
      s₄.storage_mounts = s₃.storage_mounts ∧ s₄.containers = s₃.containers ∧
      s₄.scale = s₃.scale ∧ s₄.closed_log = s₃.closed_log ∧
      (∀ q, q ≠ Phase.setup → s₄.scenario q = s₃.scenario q) ∧
      countActions (s₄.scenario Phase.setup) = countActions (s₃.scenario Phase.setup) ∧
      (NoJoined (s₃.scenario Phase.setup) → NoJoined (s₄.scenario Phase.setup)) := by
    by_cases hl : s₃.is_leader = true
    · rw [if_pos hl]
      obtain ⟨s₄, rs₄, hq4, hh⟩ :=
        queue_preserves s₃ hph3 leader_elected default_allow [] rs₃ default_allow_ok
          safe_leader_elected
      exact ⟨s₄, rs₄, hq4, hh.1, hh.2.1, hh.2.2.1, hh.2.2.2.1, hh.2.2.2.2.1,
        hh.2.2.2.2.2.1, hh.2.2.2.2.2.2.1, hh.2.2.2.2.2.2.2.2.1, hh.2.2.2.2.2.2.2.2.2.1,
        hh.2.2.2.2.2.2.2.2.2.2.1, hh.2.2.2.2.2.2.2.2.2.2.2.2⟩
    · rw [if_neg hl]
      obtain ⟨s₄, rs₄, hq4, hh⟩ :=
        queue_preserves s₃ hph3 leader_settings_changed default_allow [] rs₃ default_allow_ok
          safe_leader_settings_changed
      exact ⟨s₄, rs₄, hq4, hh.1, hh.2.1, hh.2.2.1, hh.2.2.2.1, hh.2.2.2.2.1,
        hh.2.2.2.2.2.1, hh.2.2.2.2.2.2.1, hh.2.2.2.2.2.2.2.2.1, hh.2.2.2.2.2.2.2.2.2.1,
        hh.2.2.2.2.2.2.2.2.2.2.1, hh.2.2.2.2.2.2.2.2.2.2.2.2⟩
  obtain ⟨s₄, rs₄, hq4, hph4, hpool4, hmax4, hrel4, hsto4, hcon4, hsc4, hcl4, hoth4,
    hcount4, hnoj4⟩ := hlead
  rw [hq4, andThen_none]
  obtain ⟨s₅, rs₅, hq5, hph5, hpool5, hmax5, hrel5, hsto5, hcon5, hsc5, hld5, hcl5,
    hoth5, hcount5, hjoin5, hnoj5⟩ :=
    queue_preserves s₄ hph4 config_changed default_allow [] rs₄ default_allow_ok
      safe_config_changed
  rw [hq5, andThen_none]
  obtain ⟨s₆, rs₆, hq6, hph6, hpool6, hmax6, hrel6, hsto6, hcon6, hsc6, hld6, hcl6,
    hoth6, hcount6, hjoin6, hnoj6⟩ :=
    queue_preserves s₅ hph5 start default_allow [] rs₅ default_allow_ok safe_start
  refine ⟨s₆, rs₆, hq6, hph6, ?_, ?_, ?_, ?_, ?_, ?_, ?_, ?_, ?_, ?_, ?_⟩
  · rw [hpool6, hpool5, hpool4, hpool3, hpool2, hpool1]
  · rw [hmax6, hmax5, hmax4, hmax3, hmax2, hmax1]
  · rw [hrel6, hrel5, hrel4, hrel3, hrel2, hrel1]
  · rw [hsto6, hsto5, hsto4, hsto3, hsto2, hsto1]
  · rw [hcon6, hcon5, hcon4, hcon3, hcon2, hcon1]
  · rw [hsc6, hsc5, hsc4, hsc3, hsc2, hsc1]
  · rw [hcl6, hcl5, hcl4, hcl3, hcl2, hcl1]
  · intro q hq
    rw [hoth6 q hq, hoth5 q hq, hoth4 q hq, hoth3 q hq, hoth2 q hq, hoth1 q hq]
  · rw [hcount6, hcount5, hcount4, hcount3, hcount2, hcount1]
  · intro hN
    exact hnoj6 (hnoj5 (hnoj4 (hnoj3 (hnoj2 (hnoj1 hN)))))
  · have hfin := queue_result_nonempty s₅ start default_allow [] rs₅ hph5
    rw [hq6] at hfin
    exact hfin

/-- `_run_teardown` (with the phase set): never raises; adds only safe event
blocks to the teardown trace; everything else preserved. -/
theorem run_teardown_spec (s : Sim) (rs : RandState) (hp : s.phase = some Phase.teardown) :
    ∃ (s' : Sim) (rs' : RandState), s.run_teardown rs = ⟨none, s', rs'⟩ ∧
      s'.phase = some Phase.teardown ∧ s'.possible_actions = s.possible_actions ∧
      s'.max_operation_length = s.max_operation_length ∧
      (∀ q, q ≠ Phase.teardown → s'.scenario q = s.scenario q) ∧
      countActions (s'.scenario Phase.teardown) = countActions (s.scenario Phase.teardown) ∧
      (NoJoined (s.scenario Phase.teardown) → NoJoined (s'.scenario Phase.teardown)) := by
  unfold Sim.run_teardown
  obtain ⟨s₁, rs₁, hq1, hph1, hpool1, hmax1, _, _, _, _, _, _, hoth1, hcount1, _, hnoj1, _⟩ :=
    queue_events_preserves (s.relations.map Relation.broken) s rs hp
      (by intro e he; obtain ⟨r, _, rfl⟩ := List.mem_map.mp he; exact safe_broken r)
  rw [hq1, andThen_none]
  obtain ⟨s₂, rs₂, hq2, hph2, hpool2, hmax2, _, _, _, _, _, _, hoth2, hcount2, _, hnoj2, _⟩ :=
    queue_events_preserves (s₁.storage_mounts.map StorageMount.detached) s₁ rs₁ hph1
      (by intro e he; obtain ⟨m, _, rfl⟩ := List.mem_map.mp he; exact safe_detached m)
  rw [hq2, andThen_none]
  obtain ⟨s₃, rs₃, hq3, hph3, hpool3, hmax3, _, _, _, _, _, _, hoth3, hcount3, _, hnoj3⟩ :=
    queue_preserves s₂ hph2 stop default_allow [] rs₂ default_allow_ok safe_stop
  rw [hq3, andThen_none]
  obtain ⟨s₄, rs₄, hq4, hph4, hpool4, hmax4, _, _, _, _, _, _, hoth4, hcount4, _, hnoj4⟩ :=
    queue_preserves s₃ hph3 remove default_allow [] rs₃ default_allow_ok safe_remove
  refine ⟨s₄, rs₄, hq4, hph4, by rw [hpool4, hpool3, hpool2, hpool1],
    by rw [hmax4, hmax3, hmax2, hmax1], ?_, ?_, ?_⟩
  · intro q hq
    rw [hoth4 q hq, hoth3 q hq, hoth2 q hq, hoth1 q hq]
  · rw [hcount4, hcount3, hcount2, hcount1]
  · intro hN
    exact hnoj4 (hnoj3 (hnoj2 (hnoj1 hN)))

theorem noJoined_of_perm {l l' : List Entry} (h : l.Perm l') (hN : NoJoined l') :
    NoJoined l := fun x hx => hN x (h.mem_iff.mp hx)

/-! ## The three phase scopes of `run` -/

/-- The setup phase scope (`with _set_phase(setup): _run_setup()`): never
raises; preserves the pool, configuration and the other phases' traces; the
setup trace stays free of joined events. -/
theorem setup_phase_spec (s : Sim) (rs : RandState) :
    ∃ (s' : Sim) (rs' : RandState),
      s.with_phase Phase.setup Sim.run_setup rs = ⟨none, s', rs'⟩ ∧
      s'.phase = s.phase ∧ s'.possible_actions = s.possible_actions ∧
      s'.max_operation_length = s.max_operation_length ∧ s'.relations = s.relations ∧
      s'.storage_mounts = s.storage_mounts ∧ s'.containers = s.containers ∧
      s'.scale = s.scale ∧
      s'.scenario Phase.operation = s.scenario Phase.operation ∧
      s'.scenario Phase.teardown = s.scenario Phase.teardown ∧
      (NoJoined (s.scenario Phase.setup) → NoJoined (s'.scenario Phase.setup)) := by
  obtain ⟨s₂, rs₂, hq, hph2, hpool2, hmax2, hrel2, hsto2, hcon2, hsc2, hcl2, hoth2,
    hcount2, hnoj2, hne2⟩ :=
    run_setup_spec ({ s with phase := some Phase.setup }) rs rfl
  obtain ⟨tr, rs₃, hclose, ins, hperm, hins⟩ := close_phase_setup_spec s₂ rs₂ hne2
  refine ⟨{ { s₂.setScenario Phase.setup tr with
      closed_log := s₂.closed_log ++ [Phase.setup] } with phase := s.phase }, rs₃, ?_,
    rfl, ?_, ?_, ?_, ?_, ?_, ?_, ?_, ?_, ?_⟩
  · show Sim.with_phase s Phase.setup Sim.run_setup rs = _
    unfold Sim.with_phase
    rw [hq]
    show StepRes.andThen (s₂.close_phase Phase.setup rs₂) _ = _
    rw [hclose, andThen_none]
  · show (s₂.setScenario Phase.setup tr).possible_actions = _
    rw [setScenario_pool, hpool2]
  · show (s₂.setScenario Phase.setup tr).max_operation_length = _
    rw [setScenario_max, hmax2]
  · show (s₂.setScenario Phase.setup tr).relations = _
    rw [setScenario_relations, hrel2]
  · show (s₂.setScenario Phase.setup tr).storage_mounts = _
    rw [setScenario_storage, hsto2]
  · show (s₂.setScenario Phase.setup tr).containers = _
    rw [setScenario_containers, hcon2]
  · show (s₂.setScenario Phase.setup tr).scale = _
    rw [setScenario_scale, hsc2]
  · show ((s₂.setScenario Phase.setup tr).scenario Phase.operation) = _
    rw [setScenario_scenario_ne _ _ (by decide), hoth2 Phase.operation (by decide)]
    simp
  · show ((s₂.setScenario Phase.setup tr).scenario Phase.teardown) = _
    rw [setScenario_scenario_ne _ _ (by decide), hoth2 Phase.teardown (by decide)]
    simp
  · intro hN
    show NoJoined ((s₂.setScenario Phase.setup tr).scenario Phase.setup)
    rw [setScenario_scenario_same]
    have hN2 : NoJoined (s₂.scenario Phase.setup) := hnoj2 (by simpa using hN)
    have hNins : NoJoined ins := by
      intro x hx
      obtain ⟨c, _, rfl⟩ := hins x hx
      exact not_entryJoined_event (safe_pebble c)
    exact noJoined_of_perm hperm (noJoined_append hN2 hNins)

/-- The teardown phase scope: never raises; preserves the pool and the other
phases' traces; the teardown trace stays free of joined events and gains no
action entries. -/
theorem teardown_phase_spec (s : Sim) (rs : RandState) :
    ∃ (s' : Sim) (rs' : RandState),
      s.with_phase Phase.teardown Sim.run_teardown rs = ⟨none, s', rs'⟩ ∧
      s'.phase = s.phase ∧ s'.possible_actions = s.possible_actions ∧
      s'.max_operation_length = s.max_operation_length ∧
      s'.scenario Phase.setup = s.scenario Phase.setup ∧
      s'.scenario Phase.operation = s.scenario Phase.operation ∧
      countActions (s'.scenario Phase.teardown) = countActions (s.scenario Phase.teardown) ∧
      (NoJoined (s.scenario Phase.teardown) → NoJoined (s'.scenario Phase.teardown)) := by
  obtain ⟨s₂, rs₂, hq, hph2, hpool2, hmax2, hoth2, hcount2, hnoj2⟩ :=
    run_teardown_spec ({ s with phase := some Phase.teardown }) rs rfl
  refine ⟨{ { s₂ with closed_log := s₂.closed_log ++ [Phase.teardown] } with
      phase := s.phase }, rs₂, ?_, rfl, hpool2, hmax2, ?_, ?_, ?_, ?_⟩
  · show Sim.with_phase s Phase.teardown Sim.run_teardown rs = _
    unfold Sim.with_phase
    rw [hq]
    show StepRes.andThen (s₂.close_phase Phase.teardown rs₂) _ = _
    rw [close_phase_teardown, andThen_none]
  · show ({ s₂ with closed_log := s₂.closed_log ++ [Phase.teardown] } : Sim).scenario
        Phase.setup = _
    rw [scenario_update_closed, hoth2 Phase.setup (by decide)]
    simp
  · show ({ s₂ with closed_log := s₂.closed_log ++ [Phase.teardown] } : Sim).scenario
        Phase.operation = _
    rw [scenario_update_closed, hoth2 Phase.operation (by decide)]
    simp
  · show countActions (({ s₂ with closed_log := s₂.closed_log ++ [Phase.teardown] } :
        Sim).scenario Phase.teardown) = _
    rw [scenario_update_closed, hcount2]
    simp
  · intro hN
    show NoJoined (({ s₂ with closed_log := s₂.closed_log ++ [Phase.teardown] } :
        Sim).scenario Phase.teardown)
    rw [scenario_update_closed]
    exact hnoj2 (by simpa using hN)

/-- The operation phase scope: the uniform draw never fails given the three
generic actions (no `IndexError`), and on success the operation trace gains
exactly `max_operation_length + 1` action entries, `JoinedOk` there is
preserved, the other traces are untouched, and the trio stays in the pool. -/
theorem operation_phase_spec (s : Sim) (rs : RandState) (ht : TrioIn s) :
    (s.with_phase Phase.operation Sim.run_operation rs).err ≠ some SimError.indexError ∧
    (∀ (s' : Sim) (rs' : RandState),
      s.with_phase Phase.operation Sim.run_operation rs = ⟨none, s', rs'⟩ →
      s'.phase = s.phase ∧ TrioIn s' ∧
      s'.max_operation_length = s.max_operation_length ∧
      s'.scenario Phase.setup = s.scenario Phase.setup ∧
      s'.scenario Phase.teardown = s.scenario Phase.teardown ∧
      countActions (s'.scenario Phase.operation) =
        countActions (s.scenario Phase.operation) + (s.max_operation_length + 1) ∧
      (JoinedOk (s.scenario Phase.operation) → JoinedOk (s'.scenario Phase.operation))) := by
  have hp₁ : ({ s with phase := some Phase.operation } : Sim).phase =
      some Phase.operation := rfl
  have ht₁ : TrioIn ({ s with phase := some Phase.operation } : Sim) := ht
  obtain ⟨l1, l2, l3, l4, l5, l6, l7⟩ :=
    run_operation_loop_spec (({ s with phase := some Phase.operation } : Sim).max_operation_length + 1)
      ({ s with phase := some Phase.operation }) rs hp₁ ht₁
  set body := run_operation_loop
      (({ s with phase := some Phase.operation } : Sim).max_operation_length + 1)
      ({ s with phase := some Phase.operation }) rs with hbody
  have hwp : s.with_phase Phase.operation Sim.run_operation rs =
      match body.err with
      | some _ => body
      | none =>
        (body.sim.close_phase Phase.operation body.rand).andThen fun s' rs' =>
          ⟨none, { s' with phase := s.phase }, rs'⟩ := by
    unfold Sim.with_phase Sim.run_operation
    rfl
  rcases hb : body with ⟨err, sb, rsb⟩
  rw [hb] at hwp l1 l2 l3 l4 l5 l6 l7
  cases err with
  | some e =>
    rw [hwp]
    constructor
    · simpa using l1
    · intro s' rs' habs
      simp at habs
  | none =>
    rw [hwp]
    simp only [close_phase_op, andThen_none]
    constructor
    · simp
    · intro s' rs' heq
      injection heq with _ hsim _
      subst hsim
      refine ⟨rfl, ?_, ?_, ?_, ?_, ?_, ?_⟩
      · exact l2
      · show sb.max_operation_length = s.max_operation_length
        simpa using l4
      · show sb.scenario Phase.setup = s.scenario Phase.setup
        have := l5 rfl Phase.setup (by decide)
        simpa using this
      · show sb.scenario Phase.teardown = s.scenario Phase.teardown
        have := l5 rfl Phase.teardown (by decide)
        simpa using this
      · show countActions (sb.scenario Phase.operation) = _
        have := l6 rfl
        simpa using this
      · intro hJ
        show JoinedOk (sb.scenario Phase.operation)
        exact l7 rfl (by simpa using hJ)

/-! ## Whole-run specification -/

theorem run_walk (cfg : Config) (rs : RandState) {st : StepRes}
    (h : runFromCfg cfg rs = Except.ok st) :
    ∃ (s₀ : Sim) (rs₀ : RandState), init cfg rs = Except.ok (s₀, rs₀) ∧ st = s₀.run rs₀ := by
  unfold runFromCfg at h
  rcases hinit : init cfg rs with e | ⟨s₀, rs₀⟩
  · rw [hinit] at h
    exact Except.noConfusion h
  · rw [hinit] at h
    injection h with h'
    exact ⟨s₀, rs₀, rfl, h'.symm⟩

/-- The behaviour of `run()` from a freshly constructed state: the uniform
draw of the operation loop never fails; a completed run has exactly
`max_operation_length + 1` action entries in the operation trace, every
`joined` event immediately followed by its `changed`, and the three generic
actions still in the pool. -/
theorem run_spec (s₀ : Sim) (rs₀ : RandState) (hph : s₀.phase = Option.none)
    (htr : ∀ p, s₀.scenario p = []) (ht : TrioIn s₀) :
    (s₀.run rs₀).err ≠ some SimError.indexError ∧
    ((s₀.run rs₀).err = none →
      countActions ((s₀.run rs₀).sim.scenario Phase.operation) =
        s₀.max_operation_length + 1 ∧
      (∀ p, JoinedOk ((s₀.run rs₀).sim.scenario p)) ∧
      TrioIn (s₀.run rs₀).sim) := by
  obtain ⟨s₁, rs₁, hw1, hph1, hpool1, hmax1, _, _, _, _, hop1, htd1, hnoj1⟩ :=
    setup_phase_spec s₀ rs₀
  have hrun : s₀.run rs₀ = StepRes.andThen
      (s₁.with_phase Phase.operation Sim.run_operation rs₁)
      (fun s₂ rs₂ => s₂.with_phase Phase.teardown Sim.run_teardown rs₂) := by
    unfold Sim.run Sim.run_pre_teardown
    rw [hw1, andThen_none]
  have ht₁ : TrioIn s₁ := by
    unfold TrioIn at ht ⊢
    rw [hpool1]
    exact ht
  obtain ⟨hop_noidx, hop_ok⟩ := operation_phase_spec s₁ rs₁ ht₁
  rcases hob : s₁.with_phase Phase.operation Sim.run_operation rs₁ with ⟨err₂, s₂, rs₂⟩
  rw [hob] at hrun hop_noidx
  cases err₂ with
  | some e =>
    rw [hrun]
    simp only [andThen_some]
    refine ⟨by simpa using hop_noidx, ?_⟩
    intro hc
    simp at hc
  | none =>
    obtain ⟨hph2, ht2, hmax2, hsu2, htd2, hcount2, hjoin2⟩ := hop_ok s₂ rs₂ hob
    obtain ⟨s₃, rs₃, hw3, hph3, hpool3, hmax3, hsu3, hop3, hcount3, hnoj3⟩ :=
      teardown_phase_spec s₂ rs₂
    rw [hrun]
    simp only [andThen_none]
    rw [hw3]
    refine ⟨by simp, ?_⟩
    intro _
    refine ⟨?_, ?_, ?_⟩
    · show countActions (s₃.scenario Phase.operation) = _
      rw [hop3, hcount2, hop1, htr Phase.operation, hmax1]
      simp [countActions]
    · intro p
      cases p with
      | setup =>
        show JoinedOk (s₃.scenario Phase.setup)
        rw [hsu3, hsu2]
        refine joinedOk_of_noJoined (hnoj1 ?_)
        rw [htr Phase.setup]
        exact noJoined_nil
      | operation =>
        show JoinedOk (s₃.scenario Phase.operation)
        rw [hop3]
        refine hjoin2 ?_
        rw [hop1, htr Phase.operation]
        exact joinedOk_nil
      | teardown =>
        show JoinedOk (s₃.scenario Phase.teardown)
        refine joinedOk_of_noJoined (hnoj3 ?_)
        rw [htd2, htd1, htr Phase.teardown]
        exact noJoined_nil
    · unfold TrioIn at ht2 ⊢
      rw [hpool3]
      exact ht2

/-! # Claim theorems -/

/-- C1.  The claim states that the leadership event is queued during setup
if and only if at least one peer relation exists, and that with no peer
relation no leadership event is queued between `install` and
`config_changed`.  The code violates this: `_run_setup` tests
`if peer_relations := self._peer_relations:` — the truthiness of a `filter`
object, which is always true — so `leader-elected` is queued even though
`c1cfg` has no peer relation at all (its only relation, `db`, is ordinary).
This theorem evaluates the embedded code at that failing input: the setup
trace of a completed run is exactly `install, leader-elected,
config-changed, start`. -/
theorem claim_C1 :
    run_trace (runFromCfg c1cfg rsHigh) Phase.setup =
      some [Entry.event install, Entry.event leader_elected,
            Entry.event config_changed, Entry.event start] ∧
    c1cfg.relations.all (fun r => !r.is_peer) = true := by
  constructor
  · decide
  · decide

/-- C2.  The claim states that executing the action produced by the
`Relation.join` factory (for a member, not-yet-joined relation) queues
`joined` then `changed` with injection disabled, sets `is_joined`, and
consumes the action.  The code violates this: the factory produces the name
`"join"`, but `_exec` dispatches on the name `"joined"`, so the factory's
action always falls through to the unrecognized-action `ValueError` —
nothing is queued (only the `Action` entry is appended), `is_joined` stays
false and the action is not consumed, as this evaluation at the failing
input shows. -/
theorem claim_C2 :
    (c2sim.exec dbRel.join rsZero).err =
      some (SimError.valueError "Relation-action not recognized") ∧
    (c2sim.exec dbRel.join rsZero).sim.operation_trace = [Entry.action dbRel.join] ∧
    (c2sim.exec dbRel.join rsZero).sim.relations = [dbRel] ∧
    (c2sim.exec dbRel.join rsZero).sim.possible_actions = [dbRel.join] := by
  refine ⟨?_, ?_, ?_, ?_⟩ <;> decide

/-- C3.  The claim states that executing a `depart` action on a member,
joined relation sets `is_joined` to false, queues the relation's `departed`
event, and consumes the action.  The code violates the middle conjunct: the
`depart` branch of `_exec` contains no `_queue` call at all.  Evaluating the
embedded code at the failing input: the run succeeds, `is_joined` flips to
false and the action is consumed, but the trace gains only the `Action`
entry — no `departed` event. -/
theorem claim_C3 :
    (c3sim.exec dbJoined.depart rsZero).err = none ∧
    (c3sim.exec dbJoined.depart rsZero).sim.operation_trace =
      [Entry.action dbJoined.depart] ∧
    (c3sim.exec dbJoined.depart rsZero).sim.relations = [⟨"db", false, false⟩] ∧
    (c3sim.exec dbJoined.depart rsZero).sim.possible_actions = [] := by
  refine ⟨?_, ?_, ?_, ?_⟩ <;> decide

/-- C4.  The claim states that the phase-close hook runs on every exit path
from a phase, including the path where a fatal error aborts the run.  The
code violates this: `_set_phase` is a `@contextmanager` without
`try/finally`, so when the body raises, `_close_phase` is skipped.  With
`c4cfg` (whose potential storage duplicates an attached mount) and the
constant-4 stream, the first operation draw picks the duplicate `attach`,
which raises `RuntimeError` inside the operation phase body; the ghost log
of close-hook invocations shows only `setup` — the operation phase was
entered (the error state's `phase` is still `operation`) but its close hook
never executed. -/
theorem claim_C4 :
    run_err (runFromCfg c4cfg rsFour) =
      some (SimError.runtimeError "attempting to re-attach storage") ∧
    run_closed (runFromCfg c4cfg rsFour) = some [Phase.setup] ∧
    (stepOf (runFromCfg c4cfg rsFour)).sim.phase = some Phase.operation := by
  refine ⟨?_, ?_, ?_⟩ <;> decide

/-- C5.  For every configuration accepted by the constructor and every
outcome of the random source under which `run()` completes, the operation
trace contains exactly `max_operation_length + 1` `Action` entries (injected
event entries do not count). -/
theorem claim_C5 (cfg : Config) (rs : RandState) (st : StepRes)
    (hrun : runFromCfg cfg rs = Except.ok st) (hok : st.err = none) :
    countActions (st.sim.scenario Phase.operation) = cfg.max_operation_length + 1 := by
  obtain ⟨s₀, rs₀, hinit, hst⟩ := run_walk cfg rs hrun
  obtain ⟨hph, htr, ht, hmax⟩ := init_spec cfg rs hinit
  obtain ⟨_, hres⟩ := run_spec s₀ rs₀ hph htr ht
  subst hst
  obtain ⟨hcount, _, _⟩ := hres hok
  rw [hcount, hmax]

theorem claim_C5_witness :
    runFromCfg wcfg rsHigh = Except.ok (stepOf (runFromCfg wcfg rsHigh)) ∧
    (stepOf (runFromCfg wcfg rsHigh)).err = none ∧
    countActions ((stepOf (runFromCfg wcfg rsHigh)).sim.scenario Phase.operation) =
      wcfg.max_operation_length + 1 :=
  ⟨rfl, rfl, claim_C5 wcfg rsHigh (stepOf (runFromCfg wcfg rsHigh)) rfl rfl⟩

/-- C6.  In every trace produced by a completed `run()`, every relation
`joined` event in any phase's sequence is immediately followed — with no
intervening entry — by the `changed` event of the same relation
(`JoinedOk`). -/
theorem claim_C6 (cfg : Config) (rs : RandState) (st : StepRes)
    (hrun : runFromCfg cfg rs = Except.ok st) (hok : st.err = none) :
    ∀ p, JoinedOk (st.sim.scenario p) := by
  obtain ⟨s₀, rs₀, hinit, hst⟩ := run_walk cfg rs hrun
  obtain ⟨hph, htr, ht, _⟩ := init_spec cfg rs hinit
  obtain ⟨_, hres⟩ := run_spec s₀ rs₀ hph htr ht
  subst hst
  obtain ⟨_, hJ, _⟩ := hres hok
  exact hJ

theorem claim_C6_witness :
    runFromCfg wcfg rsHigh = Except.ok (stepOf (runFromCfg wcfg rsHigh)) ∧
    (stepOf (runFromCfg wcfg rsHigh)).err = none ∧
    JoinedOk ((stepOf (runFromCfg wcfg rsHigh)).sim.scenario Phase.operation) :=
  ⟨rfl, rfl,
    claim_C6 wcfg rsHigh (stepOf (runFromCfg wcfg rsHigh)) rfl rfl Phase.operation⟩

/-- C9.  Determinism: the embedding makes the process-wide pseudorandom
source an explicit input, and `run()` reads no other nondeterministic
input — two runs built from the same configuration and started from the
same source state produce identical per-phase traces. -/
theorem claim_C9 (cfg : Config) (rs₁ rs₂ : RandState) (hseed : rs₁ = rs₂)
    (st₁ st₂ : StepRes) (h₁ : runFromCfg cfg rs₁ = Except.ok st₁)
    (h₂ : runFromCfg cfg rs₂ = Except.ok st₂) :
    ∀ p, st₁.sim.scenario p = st₂.sim.scenario p := by
  subst hseed
  rw [h₁] at h₂
  injection h₂ with h'
  rw [h']
  intro p
  rfl

theorem claim_C9_witness :
    rsHigh = rsHigh ∧
    runFromCfg wcfg rsHigh = Except.ok (stepOf (runFromCfg wcfg rsHigh)) ∧
    (stepOf (runFromCfg wcfg rsHigh)).sim.scenario Phase.setup =
      (stepOf (runFromCfg wcfg rsHigh)).sim.scenario Phase.setup :=
  ⟨rfl, rfl,
    claim_C9 wcfg rsHigh rsHigh rfl (stepOf (runFromCfg wcfg rsHigh))
      (stepOf (runFromCfg wcfg rsHigh)) rfl rfl Phase.setup⟩

/-- C10.  From every configuration the constructor accepts, the pool starts
with the three subject-less actions `config-change`, `scale+` and the
leadership change, they are never removed throughout `run()` (only the
`scale-`/`scale == 1` case forces consumption of a subject-less action),
so the operation-phase uniform draw always sees a nonempty pool and never
fails — `run()` can never abort with the draw's `IndexError`. -/
theorem claim_C10 (cfg : Config) (rs : RandState) (s₀ : Sim) (rs₀ : RandState)
    (hinit : init cfg rs = Except.ok (s₀, rs₀)) :
    TrioIn s₀ ∧
    (s₀.run rs₀).err ≠ some SimError.indexError ∧
    ((s₀.run rs₀).err = none → TrioIn (s₀.run rs₀).sim) := by
  obtain ⟨hph, htr, ht, _⟩ := init_spec cfg rs hinit
  obtain ⟨hnoidx, hres⟩ := run_spec s₀ rs₀ hph htr ht
  exact ⟨ht, hnoidx, fun hok => (hres hok).2.2⟩

theorem claim_C10_witness :
    init wcfg rsHigh =
      Except.ok ((initOr (init wcfg rsHigh)).1, (initOr (init wcfg rsHigh)).2) ∧
    (TrioIn (initOr (init wcfg rsHigh)).1 ∧
      ((initOr (init wcfg rsHigh)).1.run (initOr (init wcfg rsHigh)).2).err ≠
        some SimError.indexError ∧
      (((initOr (init wcfg rsHigh)).1.run (initOr (init wcfg rsHigh)).2).err = none →
        TrioIn ((initOr (init wcfg rsHigh)).1.run (initOr (init wcfg rsHigh)).2).sim)) :=
  ⟨rfl, claim_C10 wcfg rsHigh (initOr (init wcfg rsHigh)).1 (initOr (init wcfg rsHigh)).2 rfl⟩

/-- C8.  For every injector iteration over an allowed kind that is not
disallowed, whose per-phase chance is positive and whose uniform draw lands
below the chance, exactly one synthesized occurrence of that kind (a raw
`Event(kind)`, or a configured container's pebble-ready for the
container-readiness kind on a pebble platform) is inserted at a random index
WITHIN the local sequence built so far — the index is strictly below the
local sequence's length — and (second conjunct) `_queue` then appends the
completed local sequence to the current phase's trace, never inserting into
the already-recorded part of the trace. -/
theorem claim_C8 (s : Sim) (p : Phase) (k : String) (disallow : List String)
    (seq : List Event) (rs : RandState)
    (hk : k ∉ disallow) (hc : 0 < event_chances p k)
    (hdraw : (rs.unitDraw).1 < event_chances p k) (hne : seq ≠ []) :
    (∃ (item : Event) (idx : Nat) (rs' : RandState),
      idx < seq.length ∧
      (item.name = k ∨
        (k = pebble_ready_kind ∧ ∃ c ∈ s.containers, item = c.pebble_ready)) ∧
      s.queue_step p k disallow seq rs = (none, seq.insertIdx idx item, rs')) ∧
    (∀ (ev : Event) (allow : List String) (rs₁ : RandState) (seqr : List Event)
      (rsr : RandState), s.phase = some p →
      s.queue_loop p allow disallow [ev] rs₁ = (none, seqr, rsr) →
      s.queue ev allow disallow rs₁ =
        ⟨none, s.setScenario p (s.scenario p ++ seqr.map Entry.event), rsr⟩) := by
  constructor
  · have hlen : 0 < seq.length := List.length_pos.mpr hne
    unfold Sim.queue_step
    rw [if_neg hk, if_neg (Nat.pos_iff_ne_zero.mp hc)]
    simp only [RandState.unitDraw, RandState.draw] at hdraw ⊢
    rw [if_pos hdraw]
    by_cases h4 : k = pebble_ready_kind ∧ s.has_pebble ∧ s.containers ≠ []
    · rw [if_pos h4]
      unfold random_insert
      rw [if_neg (by omega)]
      simp only [RandState.draw]
      refine ⟨(s.containers.getD (rs.src (rs.pos + 1) % s.containers.length) ⟨""⟩).pebble_ready,
        rs.src (rs.pos + 1 + 1) % seq.length, ⟨rs.src, rs.pos + 1 + 1 + 1⟩,
        Nat.mod_lt _ hlen,
        Or.inr ⟨h4.1, s.containers.getD (rs.src (rs.pos + 1) % s.containers.length) ⟨""⟩,
          getD_mem_of_lt _ _ _ (Nat.mod_lt _ (List.length_pos.mpr h4.2.2)), rfl⟩, rfl⟩
    · rw [if_neg h4]
      unfold random_insert
      rw [if_neg (by omega)]
      simp only [RandState.draw]
      exact ⟨⟨k⟩, rs.src (rs.pos + 1) % seq.length, ⟨rs.src, rs.pos + 1 + 1⟩,
        Nat.mod_lt _ hlen, Or.inl rfl, rfl⟩
  · intro ev allow rs₁ seqr rsr hp hloop
    unfold Sim.queue
    rw [hp]
    simp only [hloop]

theorem claim_C8_witness :
    update_status_kind ∉ ([] : List String) ∧
    0 < event_chances Phase.setup update_status_kind ∧
    (rsZero.unitDraw).1 < event_chances Phase.setup update_status_kind ∧
    ([install] : List Event) ≠ [] ∧
    ((∃ (item : Event) (idx : Nat) (rs' : RandState),
      idx < ([install] : List Event).length ∧
      (item.name = update_status_kind ∨
        (update_status_kind = pebble_ready_kind ∧
          ∃ c ∈ dummySim.containers, item = c.pebble_ready)) ∧
      dummySim.queue_step Phase.setup update_status_kind [] [install] rsZero =
        (none, ([install] : List Event).insertIdx idx item, rs')) ∧
    (∀ (ev : Event) (allow : List String) (rs₁ : RandState) (seqr : List Event)
      (rsr : RandState), dummySim.phase = some Phase.setup →
      dummySim.queue_loop Phase.setup allow [] [ev] rs₁ = (none, seqr, rsr) →
      dummySim.queue ev allow [] rs₁ =
        ⟨none, dummySim.setScenario Phase.setup
          (dummySim.scenario Phase.setup ++ seqr.map Entry.event), rsr⟩)) :=
  ⟨by decide, by decide, by decide, by decide,
    claim_C8 dummySim Phase.setup update_status_kind [] [install] rsZero
      (by decide) (by decide) (by decide) (by decide)⟩

/-! ## Event disambiguation for the teardown analysis (C7) -/

theorem append_ne_lit (u w : String) (h3u : 3 ≤ u.data.length) (h3w : 3 ≤ w.data.length)
    (hne : u.data.reverse.take 3 ≠ w.data.reverse.take 3) (a : String) : a ++ u ≠ w :=
  fun h => lit_ne_append_of_rev3 w u h3w h3u (fun hh => hne hh.symm) a h.symm

theorem broken_ne_of_bg {cs : List Container} {e : Event}
    (h : Background cs default_allow e) (r : Relation) : e ≠ r.broken := by
  rcases h with ⟨c, _, rfl⟩ | ⟨k, hk, rfl⟩
  · intro heq
    exact append_ne_of_rev3 "-pebble-ready" "-relation-broken" (by decide) (by decide)
      (by decide) c.name r.name (congrArg Event.name heq)
  · rcases (by simpa [default_allow] using hk : k = pebble_ready_kind ∨
      k = update_status_kind) with rfl | rfl <;>
    · intro heq
      exact lit_ne_append_of_rev3 _ "-relation-broken" (by decide) (by decide) (by decide)
        r.name (congrArg Event.name heq)

theorem detached_ne_of_bg {cs : List Container} {e : Event}
    (h : Background cs default_allow e) (m : StorageMount) : e ≠ m.detached := by
  rcases h with ⟨c, _, rfl⟩ | ⟨k, hk, rfl⟩
  · intro heq
    exact append_ne_of_rev3 "-pebble-ready" "-storage-detached" (by decide) (by decide)
      (by decide) c.name m.name (congrArg Event.name heq)
  · rcases (by simpa [default_allow] using hk : k = pebble_ready_kind ∨
      k = update_status_kind) with rfl | rfl <;>
    · intro heq
      exact lit_ne_append_of_rev3 _ "-storage-detached" (by decide) (by decide) (by decide)
        m.name (congrArg Event.name heq)

theorem stop_ne_of_bg {cs : List Container} {e : Event}
    (h : Background cs default_allow e) : e ≠ stop := by
  rcases h with ⟨c, _, rfl⟩ | ⟨k, hk, rfl⟩
  · intro heq
    exact append_ne_lit "-pebble-ready" "stop" (by decide) (by decide) (by decide)
      c.name (congrArg Event.name heq)
  · rcases (by simpa [default_allow] using hk : k = pebble_ready_kind ∨
      k = update_status_kind) with rfl | rfl <;> decide

theorem remove_ne_of_bg {cs : List Container} {e : Event}
    (h : Background cs default_allow e) : e ≠ remove := by
  rcases h with ⟨c, _, rfl⟩ | ⟨k, hk, rfl⟩
  · intro heq
    exact append_ne_lit "-pebble-ready" "remove" (by decide) (by decide) (by decide)
      c.name (congrArg Event.name heq)
  · rcases (by simpa [default_allow] using hk : k = pebble_ready_kind ∨
      k = update_status_kind) with rfl | rfl <;> decide

theorem not_bg_broken (cs : List Container) (r : Relation) :
    ¬ Background cs default_allow r.broken :=
  fun h => broken_ne_of_bg h r rfl

theorem not_bg_detached (cs : List Container) (m : StorageMount) :
    ¬ Background cs default_allow m.detached :=
  fun h => detached_ne_of_bg h m rfl

theorem not_bg_stop (cs : List Container) : ¬ Background cs default_allow stop :=
  fun h => stop_ne_of_bg h rfl

theorem not_bg_remove (cs : List Container) : ¬ Background cs default_allow remove :=
  fun h => remove_ne_of_bg h rfl

theorem broken_ne_detached (r : Relation) (m : StorageMount) : r.broken ≠ m.detached :=
  fun h => append_ne_of_rev3 "-relation-broken" "-storage-detached" (by decide) (by decide)
    (by decide) r.name m.name (congrArg Event.name h)

theorem broken_ne_stop (r : Relation) : r.broken ≠ stop :=
  fun h => append_ne_lit "-relation-broken" "stop" (by decide) (by decide) (by decide)
    r.name (congrArg Event.name h)

theorem broken_ne_remove (r : Relation) : r.broken ≠ remove :=
  fun h => append_ne_lit "-relation-broken" "remove" (by decide) (by decide) (by decide)
    r.name (congrArg Event.name h)

theorem detached_ne_stop (m : StorageMount) : m.detached ≠ stop :=
  fun h => append_ne_lit "-storage-detached" "stop" (by decide) (by decide) (by decide)
    m.name (congrArg Event.name h)

theorem detached_ne_remove (m : StorageMount) : m.detached ≠ remove :=
  fun h => append_ne_lit "-storage-detached" "remove" (by decide) (by decide) (by decide)
    m.name (congrArg Event.name h)

theorem broken_eq_iff (r r' : Relation) : r.broken = r'.broken ↔ r.name = r'.name := by
  constructor
  · intro h
    exact str_append_right_cancel (congrArg Event.name h)
  · intro h
    unfold Relation.broken
    rw [h]

theorem detached_eq_iff (m m' : StorageMount) : m.detached = m'.detached ↔ m.name = m'.name := by
  constructor
  · intro h
    exact str_append_right_cancel (congrArg Event.name h)
  · intro h
    unfold StorageMount.detached
    rw [h]

/-- One occurrence per distinct name: counting the image of an element of a
name-`Nodup` list under a name-determined map. -/
theorem count_map_by_name {α : Type} (nm : α → String) (f : α → Event)
    (hf : ∀ a b, f a = f b ↔ nm a = nm b) :
    ∀ (l : List α), (l.map nm).Nodup → ∀ a ∈ l, (l.map f).count (f a) = 1 := by
  intro l
  induction l with
  | nil => intro _ a ha; cases ha
  | cons b t ih =>
    intro hnd a ha
    have hnd' : (t.map nm).Nodup := (List.nodup_cons.mp hnd).2
    have hbn : nm b ∉ t.map nm := (List.nodup_cons.mp hnd).1
    by_cases hab : nm a = nm b
    · have hcount0 : (t.map f).count (f a) = 0 := by
        refine List.count_eq_zero.mpr ?_
        intro hmem
        obtain ⟨a'', ha'', heq⟩ := List.mem_map.mp hmem
        exact hbn (List.mem_map.mpr ⟨a'', ha'', ((hf a'' a).mp heq).trans hab⟩)
      have hfab : f a = f b := (hf a b).mpr hab
      rw [List.map_cons, List.count_cons]
      simp [hfab]
      rw [← hfab]
      exact hcount0
    · have hat : a ∈ t := by
        rcases List.mem_cons.mp ha with rfl | h
        · exact absurd rfl hab
        · exact h
      have hfab : f a ≠ f b := fun heq => hab ((hf a b).mp heq)
      rw [List.map_cons, List.count_cons]
      simp [ih hnd' a hat, hfab]
      exact fun h => hfab h.symm

/-- Membership description of a `queue_shape` block. -/
theorem mem_shape_block {seq inj : List Event} {ev : Event} {cs : List Container}
    {allow : List String} (hperm : seq.Perm (ev :: inj))
    (hbg : ∀ e ∈ inj, Background cs allow e) :
    ∀ x ∈ seq.map Entry.event, ∃ e, x = Entry.event e ∧
      (e ∈ ([ev] : List Event) ∨ Background cs allow e) := by
  intro x hx
  obtain ⟨e, he, rfl⟩ := List.mem_map.mp hx
  rcases List.mem_cons.mp (hperm.mem_iff.mp he) with rfl | hinj
  · exact ⟨e, rfl, Or.inl (List.mem_singleton.mpr rfl)⟩
  · exact ⟨e, rfl, Or.inr (hbg e hinj)⟩

/-- Entries of a block are never a given event that is neither queued nor
background. -/
theorem block_ne_event {B : List Entry} {evs : List Event} {cs : List Container}
    (hmem : ∀ x ∈ B, ∃ e, x = Entry.event e ∧ (e ∈ evs ∨ Background cs default_allow e))
    (t : Event) (htl : t ∉ evs) (htb : ¬ Background cs default_allow t) :
    ∀ x ∈ B, x ≠ Entry.event t := by
  intro x hx heq
  obtain ⟨e, rfl, hor⟩ := hmem x hx
  have he : e = t := by injection heq
  subst he
  rcases hor with h | h
  · exact htl h
  · exact htb h

theorem block_count_zero {B : List Entry} {evs : List Event} {cs : List Container}
    (hmem : ∀ x ∈ B, ∃ e, x = Entry.event e ∧ (e ∈ evs ∨ Background cs default_allow e))
    (t : Event) (htl : t ∉ evs) (htb : ¬ Background cs default_allow t) :
    B.count (Entry.event t) = 0 :=
  List.count_eq_zero.mpr (fun h => block_ne_event hmem t htl htb _ h rfl)

/-- Detailed shape of the teardown phase scope: it never raises and appends
to the teardown trace, in order, a block for the relation `broken` events, a
block for the storage `detached` events, the `stop` block and the `remove`
block; each block holds exactly the queued events plus injected background
events. -/
theorem teardown_trace_spec (s₀ : Sim) (rs₀ : RandState) :
    ∃ (B₁ B₂ : List Entry) (seq₃ seq₄ : List Event),
      (s₀.with_phase Phase.teardown Sim.run_teardown rs₀).err = none ∧
      (s₀.with_phase Phase.teardown Sim.run_teardown rs₀).sim.scenario Phase.teardown =
        s₀.scenario Phase.teardown ++ B₁ ++ B₂ ++ seq₃.map Entry.event
          ++ seq₄.map Entry.event ∧
      (∀ x ∈ B₁, ∃ e, x = Entry.event e ∧
        (e ∈ s₀.relations.map Relation.broken ∨
          Background s₀.containers default_allow e)) ∧
      (∀ x : Event, ¬ Background s₀.containers default_allow x →
        B₁.count (Entry.event x) = (s₀.relations.map Relation.broken).count x) ∧
      (∀ x ∈ B₂, ∃ e, x = Entry.event e ∧
        (e ∈ s₀.storage_mounts.map StorageMount.detached ∨
          Background s₀.containers default_allow e)) ∧
      (∀ x : Event, ¬ Background s₀.containers default_allow x →
        B₂.count (Entry.event x) = (s₀.storage_mounts.map StorageMount.detached).count x) ∧
      (∃ inj₃, seq₃.Perm (stop :: inj₃) ∧
        ∀ e ∈ inj₃, Background s₀.containers default_allow e) ∧
      (∃ inj₄, seq₄.Perm (remove :: inj₄) ∧
        ∀ e ∈ inj₄, Background s₀.containers default_allow e) := by
  obtain ⟨s', hs'⟩ : ∃ x : Sim, ({ s₀ with phase := some Phase.teardown } : Sim) = x :=
    ⟨_, rfl⟩
  have hph' : s'.phase = some Phase.teardown := by rw [← hs']
  have hrel' : s'.relations = s₀.relations := by rw [← hs']
  have hsto' : s'.storage_mounts = s₀.storage_mounts := by rw [← hs']
  have hcon' : s'.containers = s₀.containers := by rw [← hs']
  have hsc' : s'.scenario Phase.teardown = s₀.scenario Phase.teardown := by
    rw [← hs']
    simp
  obtain ⟨B₁, rsA, hq1, hmem1, hcnt1⟩ :=
    queue_events_spec Phase.teardown (s'.relations.map Relation.broken) s' rs₀ hph'
  obtain ⟨s₂, hs₂⟩ : ∃ x : Sim,
      s'.setScenario Phase.teardown (s'.scenario Phase.teardown ++ B₁) = x := ⟨_, rfl⟩
  rw [hs₂] at hq1
  have hph₂ : s₂.phase = some Phase.teardown := by rw [← hs₂]; simp [hph']
  have hsto₂ : s₂.storage_mounts = s₀.storage_mounts := by rw [← hs₂]; simp [hsto']
  have hcon₂ : s₂.containers = s₀.containers := by rw [← hs₂]; simp [hcon']
  have hsc₂ : s₂.scenario Phase.teardown = s₀.scenario Phase.teardown ++ B₁ := by
    rw [← hs₂]; simp [hsc']
  obtain ⟨B₂, rsB, hq2, hmem2, hcnt2⟩ :=
    queue_events_spec Phase.teardown (s₂.storage_mounts.map StorageMount.detached) s₂ rsA hph₂
  obtain ⟨s₃, hs₃⟩ : ∃ x : Sim,
      s₂.setScenario Phase.teardown (s₂.scenario Phase.teardown ++ B₂) = x := ⟨_, rfl⟩
  rw [hs₃] at hq2
  have hph₃ : s₃.phase = some Phase.teardown := by rw [← hs₃]; simp [hph₂]
  have hcon₃ : s₃.containers = s₀.containers := by rw [← hs₃]; simp [hcon₂]
  have hsc₃ : s₃.scenario Phase.teardown = s₀.scenario Phase.teardown ++ B₁ ++ B₂ := by
    rw [← hs₃]; simp [hsc₂]
  obtain ⟨seq₃, rsC, hq3, inj₃, hperm₃, hbg₃⟩ :=
    queue_shape s₃ stop default_allow [] rsB Phase.teardown hph₃
  obtain ⟨s₄, hs₄⟩ : ∃ x : Sim,
      s₃.setScenario Phase.teardown
        (s₃.scenario Phase.teardown ++ seq₃.map Entry.event) = x := ⟨_, rfl⟩
  rw [hs₄] at hq3
  have hph₄ : s₄.phase = some Phase.teardown := by rw [← hs₄]; simp [hph₃]
  have hcon₄ : s₄.containers = s₀.containers := by rw [← hs₄]; simp [hcon₃]
  have hsc₄ : s₄.scenario Phase.teardown =
      s₀.scenario Phase.teardown ++ B₁ ++ B₂ ++ seq₃.map Entry.event := by
    rw [← hs₄]; simp [hsc₃]
  obtain ⟨seq₄, rsD, hq4, inj₄, hperm₄, hbg₄⟩ :=
    queue_shape s₄ remove default_allow [] rsC Phase.teardown hph₄
  obtain ⟨s₅, hs₅⟩ : ∃ x : Sim,
      s₄.setScenario Phase.teardown
        (s₄.scenario Phase.teardown ++ seq₄.map Entry.event) = x := ⟨_, rfl⟩
  rw [hs₅] at hq4
  have hsc₅ : s₅.scenario Phase.teardown =
      s₀.scenario Phase.teardown ++ B₁ ++ B₂ ++ seq₃.map Entry.event
        ++ seq₄.map Entry.event := by
    rw [← hs₅]; simp [hsc₄]
  have hrt : Sim.run_teardown s' rs₀ = ⟨none, s₅, rsD⟩ := by
    unfold Sim.run_teardown
    rw [hq1, andThen_none, hq2, andThen_none, hq3, andThen_none, hq4]
  have hw : s₀.with_phase Phase.teardown Sim.run_teardown rs₀ =
      ⟨none, { { s₅ with closed_log := s₅.closed_log ++ [Phase.teardown] } with
        phase := s₀.phase }, rsD⟩ := by
    unfold Sim.with_phase
    rw [hs', hrt]
    show StepRes.andThen (s₅.close_phase Phase.teardown rsD) _ = _
    rw [close_phase_teardown, andThen_none]
  refine ⟨B₁, B₂, seq₃, seq₄, by rw [hw], ?_, ?_, ?_, ?_, ?_,
    ⟨inj₃, hperm₃, ?_⟩, ⟨inj₄, hperm₄, ?_⟩⟩
  · rw [hw]
    show ({ { s₅ with closed_log := s₅.closed_log ++ [Phase.teardown] } with
        phase := s₀.phase } : Sim).scenario Phase.teardown = _
    rw [scenario_update_phase, scenario_update_closed, hsc₅]
  · intro x hx
    obtain ⟨e, he, hor⟩ := hmem1 x hx
    rw [hrel', hcon'] at hor
    exact ⟨e, he, hor⟩
  · intro x hx
    rw [← hcon'] at hx
    have h := hcnt1 x hx
    rw [hrel'] at h
    exact h
  · intro x hx
    obtain ⟨e, he, hor⟩ := hmem2 x hx
    rw [hsto₂, hcon₂] at hor
    exact ⟨e, he, hor⟩
  · intro x hx
    rw [← hcon₂] at hx
    have h := hcnt2 x hx
    rw [hsto₂] at h
    exact h
  · intro e he
    have h := hbg₃ e he
    rw [hcon₃] at h
    exact h
  · intro e he
    have h := hbg₄ e he
    rw [hcon₄] at h
    exact h

/-- C7: for every completed `run()`, the teardown-phase trace contains
exactly one `broken` event per relation present at teardown entry and exactly
one `detached` event per storage mount present at teardown entry, every such
`broken` and `detached` event precedes the `stop` event, and `stop` precedes
the `remove` event.  (Teardown entry is the state after the setup and
operation scopes; relation and storage names are assumed distinct, and the
teardown trace empty at entry, as `__init__` guarantees.) -/
theorem claim_C7 (cfg : Config) (rs : RandState) (s₀ : Sim) (rs₀ : RandState)
    (s₁ : Sim) (rs₁ : RandState)
    (hinit : init cfg rs = Except.ok (s₀, rs₀))
    (hpre : s₀.run_pre_teardown rs₀ = ⟨none, s₁, rs₁⟩)
    (hnr : (s₁.relations.map Relation.name).Nodup)
    (hns : (s₁.storage_mounts.map StorageMount.name).Nodup)
    (hempty : s₁.scenario Phase.teardown = []) :
    (s₀.run rs₀).err = none ∧
    (∀ r ∈ s₁.relations,
      ((s₀.run rs₀).sim.scenario Phase.teardown).count (Entry.event r.broken) = 1) ∧
    (∀ m ∈ s₁.storage_mounts,
      ((s₀.run rs₀).sim.scenario Phase.teardown).count (Entry.event m.detached) = 1) ∧
    (∀ r ∈ s₁.relations, ∀ i j,
      ((s₀.run rs₀).sim.scenario Phase.teardown).get? i = some (Entry.event r.broken) →
      ((s₀.run rs₀).sim.scenario Phase.teardown).get? j = some (Entry.event stop) →
      i < j) ∧
    (∀ m ∈ s₁.storage_mounts, ∀ i j,
      ((s₀.run rs₀).sim.scenario Phase.teardown).get? i = some (Entry.event m.detached) →
      ((s₀.run rs₀).sim.scenario Phase.teardown).get? j = some (Entry.event stop) →
      i < j) ∧
    (∀ i j,
      ((s₀.run rs₀).sim.scenario Phase.teardown).get? i = some (Entry.event stop) →
      ((s₀.run rs₀).sim.scenario Phase.teardown).get? j = some (Entry.event remove) →
      i < j) := by
  have hrw : s₀.run rs₀ = s₁.with_phase Phase.teardown Sim.run_teardown rs₁ := by
    unfold Sim.run
    rw [hpre, andThen_none]
  obtain ⟨B₁, B₂, seq₃, seq₄, herr, htr, hmem1, hcnt1, hmem2, hcnt2,
    ⟨inj₃, hperm₃, hbg₃⟩, ⟨inj₄, hperm₄, hbg₄⟩⟩ := teardown_trace_spec s₁ rs₁
  rw [hempty, List.nil_append] at htr
  rw [hrw]
  have hmem3 := mem_shape_block hperm₃ hbg₃
  have hmem4 := mem_shape_block hperm₄ hbg₄
  have hstop_nb1 : stop ∉ s₁.relations.map Relation.broken := by
    intro h
    obtain ⟨r, _, heq⟩ := List.mem_map.mp h
    exact broken_ne_stop r heq
  have hstop_nb2 : stop ∉ s₁.storage_mounts.map StorageMount.detached := by
    intro h
    obtain ⟨m, _, heq⟩ := List.mem_map.mp h
    exact detached_ne_stop m heq
  have hrem_nb1 : remove ∉ s₁.relations.map Relation.broken := by
    intro h
    obtain ⟨r, _, heq⟩ := List.mem_map.mp h
    exact broken_ne_remove r heq
  have hrem_nb2 : remove ∉ s₁.storage_mounts.map StorageMount.detached := by
    intro h
    obtain ⟨m, _, heq⟩ := List.mem_map.mp h
    exact detached_ne_remove m heq
  have hB1_ne_stop := block_ne_event hmem1 stop hstop_nb1 (not_bg_stop _)
  have hB2_ne_stop := block_ne_event hmem2 stop hstop_nb2 (not_bg_stop _)
  have hB1_ne_rem := block_ne_event hmem1 remove hrem_nb1 (not_bg_remove _)
  have hB2_ne_rem := block_ne_event hmem2 remove hrem_nb2 (not_bg_remove _)
  have hL3_ne_rem := block_ne_event hmem3 remove
    (fun hm => (by decide : stop ≠ remove) (List.mem_singleton.mp hm).symm)
    (not_bg_remove _)
  have hL4_ne_stop := block_ne_event hmem4 stop
    (fun hm => (by decide : stop ≠ remove) (List.mem_singleton.mp hm))
    (not_bg_stop _)
  refine ⟨herr, ?_, ?_, ?_, ?_, ?_⟩
  · intro r hr
    rw [htr, List.count_append, List.count_append, List.count_append]
    have h1 : B₁.count (Entry.event r.broken) = 1 := by
      rw [hcnt1 r.broken (not_bg_broken _ r)]
      exact count_map_by_name Relation.name Relation.broken broken_eq_iff
        s₁.relations hnr r hr
    have h2 : B₂.count (Entry.event r.broken) = 0 := by
      rw [hcnt2 r.broken (not_bg_broken _ r)]
      refine List.count_eq_zero.mpr ?_
      intro h
      obtain ⟨m, _, heq⟩ := List.mem_map.mp h
      exact broken_ne_detached r m heq.symm
    have h3 : (seq₃.map Entry.event).count (Entry.event r.broken) = 0 :=
      block_count_zero hmem3 r.broken
        (fun hm => broken_ne_stop r (List.mem_singleton.mp hm)) (not_bg_broken _ r)
    have h4 : (seq₄.map Entry.event).count (Entry.event r.broken) = 0 :=
      block_count_zero hmem4 r.broken
        (fun hm => broken_ne_remove r (List.mem_singleton.mp hm)) (not_bg_broken _ r)
    rw [h1, h2, h3, h4]
  · intro m hm
    rw [htr, List.count_append, List.count_append, List.count_append]
    have h1 : B₁.count (Entry.event m.detached) = 0 := by
      rw [hcnt1 m.detached (not_bg_detached _ m)]
      refine List.count_eq_zero.mpr ?_
      intro h
      obtain ⟨r, _, heq⟩ := List.mem_map.mp h
      exact broken_ne_detached r m heq
    have h2 : B₂.count (Entry.event m.detached) = 1 := by
      rw [hcnt2 m.detached (not_bg_detached _ m)]
      exact count_map_by_name StorageMount.name StorageMount.detached detached_eq_iff
        s₁.storage_mounts hns m hm
    have h3 : (seq₃.map Entry.event).count (Entry.event m.detached) = 0 :=
      block_count_zero hmem3 m.detached
        (fun hmm => detached_ne_stop m (List.mem_singleton.mp hmm)) (not_bg_detached _ m)
    have h4 : (seq₄.map Entry.event).count (Entry.event m.detached) = 0 :=
      block_count_zero hmem4 m.detached
        (fun hmm => detached_ne_remove m (List.mem_singleton.mp hmm)) (not_bg_detached _ m)
    rw [h1, h2, h3, h4]
  · intro r hr i j hi hj
    rw [htr, List.append_assoc (B₁ ++ B₂)] at hi hj
    refine lt_of_get?_split ?_ ?_ i j hi hj
    · intro x hx
      rcases List.mem_append.mp hx with h | h
      · exact block_ne_event hmem3 r.broken
          (fun hm => broken_ne_stop r (List.mem_singleton.mp hm))
          (not_bg_broken _ r) x h
      · exact block_ne_event hmem4 r.broken
          (fun hm => broken_ne_remove r (List.mem_singleton.mp hm))
          (not_bg_broken _ r) x h
    · intro x hx
      rcases List.mem_append.mp hx with h | h
      · exact hB1_ne_stop x h
      · exact hB2_ne_stop x h
  · intro m hm i j hi hj
    rw [htr, List.append_assoc (B₁ ++ B₂)] at hi hj
    refine lt_of_get?_split ?_ ?_ i j hi hj
    · intro x hx
      rcases List.mem_append.mp hx with h | h
      · exact block_ne_event hmem3 m.detached
          (fun hmm => detached_ne_stop m (List.mem_singleton.mp hmm))
          (not_bg_detached _ m) x h
      · exact block_ne_event hmem4 m.detached
          (fun hmm => detached_ne_remove m (List.mem_singleton.mp hmm))
          (not_bg_detached _ m) x h
    · intro x hx
      rcases List.mem_append.mp hx with h | h
      · exact hB1_ne_stop x h
      · exact hB2_ne_stop x h
  · intro i j hi hj
    rw [htr] at hi hj
    refine lt_of_get?_split ?_ ?_ i j hi hj
    · exact hL4_ne_stop
    · intro x hx
      rcases List.mem_append.mp hx with h | h
      · rcases List.mem_append.mp h with h' | h'
        · exact hB1_ne_rem x h'
        · exact hB2_ne_rem x h'
      · exact hL3_ne_rem x h

theorem claim_C7_witness :
    ((initOr (init wcfg rsHigh)).1.run (initOr (init wcfg rsHigh)).2).err = none ∧
    (∀ r ∈ wpre.sim.relations,
      (((initOr (init wcfg rsHigh)).1.run
          (initOr (init wcfg rsHigh)).2).sim.scenario Phase.teardown).count
        (Entry.event r.broken) = 1) :=
  have h := claim_C7 wcfg rsHigh (initOr (init wcfg rsHigh)).1
    (initOr (init wcfg rsHigh)).2 wpre.sim wpre.rand rfl rfl
    (by decide) (by decide) (by decide)
  ⟨h.1, h.2.1⟩

end CharmSim
